import Mathlib

/-!
# Verification of the Kalshi football live-trading engine

Shallow embedding of `backend/live_trader_fixed.py` (the canonical engine),
`backend/live_trader.py` (older variant, where it differs) and
`backend/reconcile_positions.py`, together with proofs about the frozen
claims on the natural-language specification.

Conventions of the embedding:
* Python floats are modelled as `ℚ` (the arithmetic the code performs is
  exact at the scales involved; prices are cents).
* Python `int(x)` truncates toward zero; `pyTrunc` models it.
* Network and database collaborators are modelled as an explicit
  environment (`Env`) of response functions; a `404` from the order-status
  endpoint is `StatusResp.notFound`, a response without an `'order'` key is
  `StatusResp.invalid`.
* The Supabase client is modelled as always connected: `LiveTrader.__init__`
  raises unless the database health check passes, so no reachable trading
  state has a missing client.
-/

/-- Python `int(x)` conversion of a float: truncation toward zero. -/
def pyTrunc (x : ℚ) : ℤ :=
  if 0 ≤ x then ⌊x⌋ else -⌊-x⌋

theorem pyTrunc_of_nonneg {x : ℚ} (h : 0 ≤ x) : pyTrunc x = ⌊x⌋ := by
  simp [pyTrunc, h]

/-! ## Position sizer (`LiveTrader.calculate_position_sizes`)

The function is textually identical in `live_trader_fixed.py`
(lines 500-536) and `live_trader.py` (lines 262-309); one embedding
covers both.  A scaling level is a config dict with a `trigger` price in
cents and a `kelly_mult` multiplier. -/

structure ScalingLevel where
  trigger : ℤ
  kelly_mult : ℚ
deriving DecidableEq

structure IdealPosition where
  trigger : ℤ
  ideal_size : ℤ
  ideal_capital : ℚ
deriving DecidableEq

/-- One iteration of the first loop of `calculate_position_sizes`:
`base_size = int((bankroll * kelly_frac) / price_dollars)`,
`actual_size = max(1, int(base_size * level['kelly_mult']))`. -/
def idealPosition (bankroll kelly_frac : ℚ) (level : ScalingLevel) : IdealPosition :=
  let price_dollars : ℚ := (level.trigger : ℚ) / 100
  let base_size : ℤ := pyTrunc ((bankroll * kelly_frac) / price_dollars)
  let actual_size : ℤ := max 1 (pyTrunc ((base_size : ℚ) * level.kelly_mult))
  { trigger := level.trigger
    ideal_size := actual_size
    ideal_capital := (actual_size : ℚ) * price_dollars }

/-- `LiveTrader.calculate_position_sizes` (live_trader_fixed.py:500-536).
`current_price_cents` is accepted and ignored, exactly as in the source. -/
def calculate_position_sizes (bankroll kelly_frac max_exposure : ℚ)
    (current_price_cents : ℤ) (levels_to_hit : List ScalingLevel) : List (ℤ × ℤ) :=
  let _ := current_price_cents
  let ideal_positions := levels_to_hit.map (idealPosition bankroll kelly_frac)
  let total_ideal_capital : ℚ := (ideal_positions.map IdealPosition.ideal_capital).sum
  let max_capital_allowed : ℚ := bankroll * max_exposure
  if total_ideal_capital ≤ max_capital_allowed then
    ideal_positions.map (fun p => (p.trigger, p.ideal_size))
  else
    let scale_factor : ℚ := max_capital_allowed / total_ideal_capital
    ideal_positions.map (fun p => (p.trigger, max 1 (pyTrunc ((p.ideal_size : ℚ) * scale_factor))))

/-- The ideal (pre-cap) total notional in dollars, as accumulated by the
first loop of `calculate_position_sizes`. -/
def idealTotalNotional (bankroll kelly_frac : ℚ) (levels : List ScalingLevel) : ℚ :=
  ((levels.map (idealPosition bankroll kelly_frac)).map IdealPosition.ideal_capital).sum

/-- Total notional in dollars of a returned ladder: `Σ price_cents/100 * size`. -/
def ladderNotional (ladder : List (ℤ × ℤ)) : ℚ :=
  (ladder.map (fun p => (p.1 : ℚ) / 100 * (p.2 : ℚ))).sum

/-! ## Data model of the monitor (live_trader_fixed.py:87-136) -/

/-- `Position` dataclass (live_trader_fixed.py:126-136).  `side` is typed
`str` in the source but receives `game.position_side`, which may be `None`,
so it is modelled as `Option String`. -/
structure Position where
  market_ticker : String
  side : Option String
  entry_price : ℤ
  size : ℤ
  entry_time : ℤ
  order_id : Option String := none
  exit_order_id : Option String := none
deriving DecidableEq

/-- `GameMonitor` dataclass (live_trader_fixed.py:87-124).  `highest_entry`
is an attribute added dynamically by `enter_position`. -/
structure GameMonitor where
  event_ticker : String := ""
  market_ticker : String := ""
  market_title : String := ""
  yes_subtitle : String := ""
  kickoff_ts : ℤ
  halftime_ts : ℤ
  pregame_prob : Option ℚ := none
  odds_6h : Option ℚ := none
  odds_3h : Option ℚ := none
  odds_30m : Option ℚ := none
  checkpoint_6h_ts : Option ℤ := none
  checkpoint_3h_ts : Option ℤ := none
  checkpoint_30m_ts : Option ℤ := none
  is_eligible : Option Bool := none
  position_side : Option String := none
  triggered : Bool := false
  order_ids : List String := []
  positions : List Position := []
  exiting : Bool := false
  exit_order_ids : List String := []
  highest_entry : Option ℤ := none
deriving DecidableEq

/-- The static configuration consumed by the engine (`self.config`);
`bankroll` and `total_exposure` are mutable trader state and live in
`TraderState` instead. -/
structure Config where
  kelly_fraction : ℚ
  max_exposure_pct : ℚ
  revert_fraction : ℚ
  volume_threshold_usd : ℚ
  scaling_levels : List ScalingLevel
  max_total_exposure : ℚ
  revert_bands : List ℚ
  dry_run : Bool
deriving DecidableEq

/-- Mutable trader-level state (`self.bankroll`, `self.total_exposure`). -/
structure TraderState where
  bankroll : ℚ
  total_exposure : ℚ
deriving DecidableEq

/-- The `order` payload of a successful `get_order_status` response. -/
structure OrderInfo where
  status : String
  filled_count : ℤ
  count : ℤ
  yes_price : Option ℤ := none
  no_price : Option ℤ := none
deriving DecidableEq

/-- Result of `get_order_status`: `notFound` is a 404 (Python `None`),
`invalid` is a response without an `'order'` key. -/
inductive StatusResp where
  | notFound
  | invalid
  | ok (info : OrderInfo)
deriving DecidableEq

/-- A mutating exchange-gateway call issued by the engine. -/
inductive Effect where
  | placeOrder (market : String) (side : Option String) (action : String)
      (count : ℤ) (price : ℤ)
  | cancelOrder (order_id : String)
deriving DecidableEq

/-- The environment of collaborator responses observed during one tick:
quote lookups, order-status polls, the Supabase `orders` table
(`order_id ↦ (size, price)`), sequential order-placement responses
(`(order_id, status)` for the n-th placement of the tick), the 30-day
volume lookup, and the concurrency-cap check over the other games. -/
structure Env where
  current_price : Option ℚ
  favorite_side : Option String
  volume_30d : Option ℚ
  order_status : String → StatusResp
  local_order : String → Option (ℤ × ℤ)
  place_resp : ℕ → String × String
  concurrency_ok : Bool

/-- Python `a or b` applied to
`order_status.get('yes_price') or order_status.get('no_price', 0)`:
`None` and `0` are falsy. -/
def pyOrPrice (yes no : Option ℤ) : ℤ :=
  match yes with
  | some y => if y = 0 then no.getD 0 else y
  | none => no.getD 0

/-- Python `f"...{opt}"` on an `Optional[str]`. -/
def optStr : Option String → String
  | some s => s
  | none => "None"

/-- Python `list.remove` guarded by a membership test: removes the first
occurrence, leaves the list unchanged when the element is absent. -/
def removeFirst : List String → String → List String
  | [], _ => []
  | x :: xs, a => if x = a then xs else x :: removeFirst xs a

/-! ## Checkpoint evaluator -/

/-- `LiveTrader._determine_eligibility` (live_trader_fixed.py:464-498).
`volume` is the result of the `get_30day_volume` call the method makes. -/
def determine_eligibility (cfg : Config) (volume : Option ℚ) (game : GameMonitor) :
    GameMonitor :=
  let threshold : ℚ := 57/100
  let has_high_checkpoint :=
    [game.odds_6h, game.odds_3h, game.odds_30m].any fun o =>
      match o with
      | some odds => decide (odds ≠ 0) && decide (threshold ≤ odds)
      | none => false
  let veto_30m :=
    match game.odds_30m with
    | some odds => decide (odds < threshold)
    | none => false
  let volume_veto :=
    match volume with
    | some v => decide (v < cfg.volume_threshold_usd)
    | none => false
  if veto_30m then { game with is_eligible := some false }
  else if volume_veto then { game with is_eligible := some false }
  else if has_high_checkpoint then { game with is_eligible := some true }
  else { game with is_eligible := some false }

/-- `LiveTrader.check_and_capture_checkpoint` (live_trader_fixed.py:405-462).
`get_current_price` never returns `0.0` (it returns `None` instead), but the
source still guards each capture with a truthiness test, kept here as the
`p = 0` checks. -/
def check_and_capture_checkpoint (cfg : Config) (env : Env) (game : GameMonitor)
    (now : ℤ) : GameMonitor × Bool :=
  let time_to_kickoff := game.kickoff_ts - now
  let SIX_HOURS : ℤ := 6 * 3600
  let THREE_HOURS : ℤ := 3 * 3600
  let THIRTY_MIN : ℤ := 30 * 60
  if time_to_kickoff ≤ SIX_HOURS ∧ game.odds_6h = none then
    match env.current_price with
    | some p =>
      if p = 0 then (game, false)
      else
        ({ game with
            odds_6h := some p
            checkpoint_6h_ts := some now
            pregame_prob := some p }, true)
    | none => (game, false)
  else if time_to_kickoff ≤ THREE_HOURS ∧ game.odds_3h = none then
    match env.current_price with
    | some p =>
      if p = 0 then (game, false)
      else ({ game with odds_3h := some p, checkpoint_3h_ts := some now }, true)
    | none => (game, false)
  else if time_to_kickoff ≤ THIRTY_MIN ∧ game.odds_30m = none then
    match env.current_price with
    | some p =>
      if p = 0 then (game, false)
      else
        let g := { game with odds_30m := some p, checkpoint_30m_ts := some now }
        (determine_eligibility cfg env.volume_30d g, true)
    | none => (game, false)
  else (game, false)

/-- `LiveTrader.check_entry_signal` (live_trader_fixed.py:538-555). -/
def check_entry_signal (game : GameMonitor) (now : ℤ) : Bool :=
  if game.kickoff_ts ≤ now then false
  else
    match game.is_eligible with
    | none => false
    | some e => e

/-! ## Order ladder controller and fill reconciler -/

/-- Result of a state-mutating step that can place orders: the updated
monitor, the gateway effects issued, and the next placement index. -/
structure StepResult where
  game : GameMonitor
  effects : List Effect
  next_k : ℕ
deriving DecidableEq

/-- `LiveTrader._place_exit_order` (live_trader_fixed.py:677-718): the bracket
sell placed immediately for a new position.  Returns the updated position,
the effects, and the next placement index. -/
def place_exit_order (cfg : Config) (env : Env) (game : GameMonitor)
    (position : Position) (k : ℕ) : Position × List Effect × ℕ :=
  match game.pregame_prob with
  | none => (position, [], k)
  | some pregame =>
    if pregame = 0 then (position, [], k)
    else
      let pregame_cents := pyTrunc (pregame * 100)
      let drop_cents := pregame_cents - position.entry_price
      let expected_revert_cents := pyTrunc ((drop_cents : ℚ) * cfg.revert_fraction)
      let exit_price_cents := position.entry_price + expected_revert_cents
      if cfg.dry_run then
        let oid := "dry_run_exit_" ++ optStr position.order_id
        ({ position with exit_order_id := some oid }, [], k)
      else
        let oid := (env.place_resp k).1
        ({ position with exit_order_id := some oid },
         [.placeOrder game.market_ticker position.side "sell" position.size exit_price_cents],
         k + 1)

/-- The per-level placement loop of `enter_position`
(live_trader_fixed.py:600-663), over the sized `(price_cents, size)` list. -/
def enterLoop (cfg : Config) (env : Env) (now : ℤ) (favorite_side : String) :
    GameMonitor → List (ℤ × ℤ) → ℕ → StepResult
  | g, [], k => ⟨g, [], k⟩
  | g, (price_cents, size) :: rest, k =>
    if cfg.dry_run then
      let order_id := "dry_run_" ++ toString g.order_ids.length
      enterLoop cfg env now favorite_side
        { g with order_ids := g.order_ids ++ [order_id] } rest k
    else
      let eff : Effect := .placeOrder g.market_ticker (some favorite_side) "buy" size price_cents
      let resp := env.place_resp k
      if resp.2 = "executed" then
        let position : Position :=
          { market_ticker := g.market_ticker
            side := some favorite_side
            entry_price := price_cents
            size := size
            entry_time := now
            order_id := some resp.1 }
        let pr := place_exit_order cfg env g position (k + 1)
        let r := enterLoop cfg env now favorite_side
          { g with positions := g.positions ++ [pr.1] } rest pr.2.2
        ⟨r.game, eff :: (pr.2.1 ++ r.effects), r.next_k⟩
      else
        let r := enterLoop cfg env now favorite_side
          { g with order_ids := g.order_ids ++ [resp.1] } rest (k + 1)
        ⟨r.game, eff :: r.effects, r.next_k⟩

/-- Result of `enter_position`: monitor, trader state, effects, next index. -/
structure EnterResult where
  game : GameMonitor
  st : TraderState
  effects : List Effect
  next_k : ℕ
deriving DecidableEq

/-- `LiveTrader.enter_position` (live_trader_fixed.py:557-675).
`highest_entry = max(p[0] for p in positions)` raises on an empty ladder in
Python; it is modelled with `List.max?`. -/
def enter_position (cfg : Config) (env : Env) (st : TraderState)
    (game : GameMonitor) (now : ℤ) (k : ℕ) : EnterResult :=
  match env.current_price with
  | none => ⟨game, st, [], k⟩
  | some current_price =>
    match env.favorite_side with
    | none => ⟨game, st, [], k⟩
    | some favorite_side =>
      let current_price_cents := pyTrunc (current_price * 100)
      let positions := calculate_position_sizes st.bankroll cfg.kelly_fraction
        cfg.max_exposure_pct current_price_cents cfg.scaling_levels
      let total_capital : ℚ :=
        (positions.map (fun p => (p.1 : ℚ) * (p.2 : ℚ) / 100)).sum
      if cfg.max_total_exposure < total_capital then ⟨game, st, [], k⟩
      else
        let r := enterLoop cfg env now favorite_side game positions k
        ⟨{ r.game with
            triggered := true
            position_side := some favorite_side
            highest_entry := (positions.map Prod.fst).max? },
         { st with total_exposure := st.total_exposure + total_capital },
         r.effects, r.next_k⟩

/-- Intermediate state of the `check_order_fills` polling loop. -/
structure FillsLoopResult where
  positions : List Position
  filled_orders : List String
  effects : List Effect
  next_k : ℕ
deriving DecidableEq

/-- The position-creation step of one `check_order_fills` iteration
(live_trader_fixed.py:780-814), after size/price recovery: create a
position (and its bracket sell) unless one already exists for this order. -/
def checkFillsStep (cfg : Config) (env : Env) (game : GameMonitor) (now : ℤ)
    (order_id status : String) (filled_count price : ℤ)
    (positions : List Position) (k : ℕ) : List Position × List Effect × ℕ :=
  if 0 < filled_count ∨ status = "executed" then
    match positions.find? (fun p => p.order_id == some order_id) with
    | some _ => (positions, [], k)
    | none =>
      let position : Position :=
        { market_ticker := game.market_ticker
          side := game.position_side
          entry_price := price
          size := filled_count
          entry_time := now
          order_id := some order_id }
      let pr := place_exit_order cfg env game position k
      (positions ++ [pr.1], pr.2.1, pr.2.2)
  else (positions, [], k)

/-- The polling loop of `check_order_fills` (live_trader_fixed.py:731-824).
The Supabase client is always connected (`_check_database_health` raises
otherwise), so the `'executed' and filled_count == 0` recovery always
consults `env.local_order`. -/
def checkFillsLoop (cfg : Config) (env : Env) (game : GameMonitor) (now : ℤ) :
    List String → List Position → List String → ℕ → FillsLoopResult
  | [], positions, filled_orders, k => ⟨positions, filled_orders, [], k⟩
  | order_id :: rest, positions, filled_orders, k =>
    match env.order_status order_id with
    | .notFound =>
      checkFillsLoop cfg env game now rest positions (filled_orders ++ [order_id]) k
    | .invalid =>
      checkFillsLoop cfg env game now rest positions filled_orders k
    | .ok info =>
      let price := pyOrPrice info.yes_price info.no_price
      if info.status = "executed" ∧ info.filled_count = 0 then
        match env.local_order order_id with
        | none =>
          checkFillsLoop cfg env game now rest positions filled_orders k
        | some (sz, pr) =>
          let r := checkFillsStep cfg env game now order_id info.status sz pr positions k
          let filled' := if info.status = "filled" ∨ info.status = "executed"
            then filled_orders ++ [order_id] else filled_orders
          let r' := checkFillsLoop cfg env game now rest r.1 filled' r.2.2
          ⟨r'.positions, r'.filled_orders, r.2.1 ++ r'.effects, r'.next_k⟩
      else
        let r := checkFillsStep cfg env game now order_id info.status
          info.filled_count price positions k
        let filled' := if info.status = "filled" ∨ info.status = "executed"
          then filled_orders ++ [order_id] else filled_orders
        let r' := checkFillsLoop cfg env game now rest r.1 filled' r.2.2
        ⟨r'.positions, r'.filled_orders, r.2.1 ++ r'.effects, r'.next_k⟩

/-- `LiveTrader.check_order_fills` (live_trader_fixed.py:720-830). -/
def check_order_fills (cfg : Config) (env : Env) (game : GameMonitor)
    (now : ℤ) (k : ℕ) : StepResult :=
  if game.order_ids = [] ∨ cfg.dry_run then ⟨game, [], k⟩
  else
    let r := checkFillsLoop cfg env game now game.order_ids game.positions [] k
    ⟨{ game with
        positions := r.positions
        order_ids := r.filled_orders.foldl removeFirst game.order_ids },
     r.effects, r.next_k⟩

/-! ## Exit controller -/

/-- `LiveTrader.check_reversion_signal` (live_trader_fixed.py:832-887). -/
def check_reversion_signal (cfg : Config) (env : Env) (game : GameMonitor) : Bool :=
  if game.positions = [] then false
  else if cfg.dry_run then
    match env.current_price with
    | none => false
    | some current_price =>
      match cfg.revert_bands with
      | [] => false
      | band :: _ => decide (band ≤ current_price)
  else
    game.positions.any fun position =>
      match position.exit_order_id with
      | none => false
      | some exit_id =>
        match env.order_status exit_id with
        | .notFound => true
        | .invalid => false
        | .ok info =>
          info.status == "filled" || info.status == "executed" ||
            decide (0 < info.filled_count)

/-- `LiveTrader.cancel_pending_orders` (live_trader_fixed.py:972-1009).
Each cancellation attempt is issued and the pending list is cleared
regardless of per-order failures. -/
def cancel_pending_orders (cfg : Config) (game : GameMonitor) :
    GameMonitor × List Effect :=
  if game.order_ids = [] then (game, [])
  else if cfg.dry_run then ({ game with order_ids := [] }, [])
  else ({ game with order_ids := [] }, game.order_ids.map Effect.cancelOrder)

/-- `LiveTrader._cancel_exit_orders` (live_trader_fixed.py:936-970).
Cancellations are modelled as succeeding, after which each position's
`exit_order_id` is reset to `None`. -/
def cancel_exit_orders (cfg : Config) (game : GameMonitor) :
    GameMonitor × List Effect :=
  let exit_orders := game.positions.filterMap Position.exit_order_id
  if exit_orders = [] then (game, [])
  else
    let cleared := game.positions.map fun p => { p with exit_order_id := none }
    if cfg.dry_run then ({ game with positions := cleared }, [])
    else ({ game with positions := cleared }, exit_orders.map Effect.cancelOrder)

/-- The per-position sell-placement loop of `exit_position_at_halftime`
(live_trader_fixed.py:907-929): returns the updated positions, the new exit
order ids, the effects, and the next placement index. -/
def halftimeSellLoop (cfg : Config) (env : Env) (market_ticker : String)
    (price_cents : ℤ) : List Position → ℕ →
    List Position × List String × List Effect × ℕ
  | [], k => ([], [], [], k)
  | p :: rest, k =>
    if cfg.dry_run then
      let r := halftimeSellLoop cfg env market_ticker price_cents rest k
      (p :: r.1, ("dry_run_exit_" ++ optStr p.order_id) :: r.2.1, r.2.2.1, r.2.2.2)
    else
      let oid := (env.place_resp k).1
      let r := halftimeSellLoop cfg env market_ticker price_cents rest (k + 1)
      ({ p with exit_order_id := some oid } :: r.1, oid :: r.2.1,
       Effect.placeOrder market_ticker p.side "sell" p.size price_cents :: r.2.2.1,
       r.2.2.2)

/-- `LiveTrader.exit_position_at_halftime` (live_trader_fixed.py:889-934):
maker-only limit sells at the current price for every open position. -/
def exit_position_at_halftime (cfg : Config) (env : Env) (game : GameMonitor)
    (k : ℕ) : StepResult :=
  match env.current_price with
  | none => ⟨game, [], k⟩
  | some current_price =>
    let current_price_cents := pyTrunc (current_price * 100)
    let r := halftimeSellLoop cfg env game.market_ticker current_price_cents
      game.positions k
    ⟨{ game with
        positions := r.1
        exit_order_ids := game.exit_order_ids ++ r.2.1
        exiting := true }, r.2.2.1, r.2.2.2⟩

/-- `LiveTrader.check_exit_signal` (live_trader_fixed.py:1011-1032). -/
def check_exit_signal (cfg : Config) (env : Env) (game : GameMonitor)
    (now : ℤ) : Bool :=
  if game.positions = [] then false
  else if game.halftime_ts ≤ now then true
  else
    match env.current_price with
    | none => false
    | some current_price =>
      cfg.revert_bands.any fun band => decide (band ≤ current_price)

/-- The per-position sell loop of `exit_position`
(live_trader_fixed.py:1071-1109); only `game.exit_order_ids` grows here,
positions themselves are untouched. -/
def exitSellLoop (cfg : Config) (env : Env) (market_ticker : String)
    (current_price_cents : ℤ) (use_market_orders : Bool) :
    List Position → ℕ → List String × List Effect × ℕ
  | [], k => ([], [], k)
  | p :: rest, k =>
    if cfg.dry_run then
      let r := exitSellLoop cfg env market_ticker current_price_cents
        use_market_orders rest k
      (("dry_run_exit_" ++ optStr p.order_id) :: r.1, r.2.1, r.2.2)
    else
      let price := if use_market_orders then max 1 (current_price_cents - 1)
        else current_price_cents
      let oid := (env.place_resp k).1
      let r := exitSellLoop cfg env market_ticker current_price_cents
        use_market_orders rest (k + 1)
      (oid :: r.1,
       Effect.placeOrder market_ticker p.side "sell" p.size price :: r.2.1, r.2.2)

/-- `LiveTrader.exit_position` (live_trader_fixed.py:1034-1114). -/
def exit_position (cfg : Config) (env : Env) (game : GameMonitor)
    (use_market_orders : Bool) (k : ℕ) : StepResult :=
  let r1 := if game.order_ids ≠ [] then cancel_pending_orders cfg game else (game, [])
  let g1 := r1.1
  let r2 := if g1.positions ≠ [] then cancel_exit_orders cfg g1 else (g1, [])
  let g2 := r2.1
  match env.current_price with
  | none => ⟨g2, r1.2 ++ r2.2, k⟩
  | some current_price =>
    let current_price_cents := pyTrunc (current_price * 100)
    let r := exitSellLoop cfg env g2.market_ticker current_price_cents
      use_market_orders g2.positions k
    ⟨{ g2 with
        exit_order_ids := g2.exit_order_ids ++ r.1
        exiting := true },
     r1.2 ++ r2.2 ++ r.2.1, r.2.2⟩

/-- Accumulated state of the `monitor_exit_orders` polling loop
(live_trader_fixed.py:1139-1196). -/
structure MonitorLoopResult where
  all_filled : Bool
  filled_orders : List String
  total_pnl : ℚ
deriving DecidableEq

/-- The polling loop of `monitor_exit_orders`: for each exit order, a 404 is
treated as filled (with no P&L contribution); a filled/executed status adds
the P&L of the *first* position whose size equals the order's count, when a
truthy fill price is available. -/
def monitorExitLoop (env : Env) (positions : List Position) :
    List String → MonitorLoopResult
  | [] => ⟨true, [], 0⟩
  | order_id :: rest =>
    let r := monitorExitLoop env positions rest
    match env.order_status order_id with
    | .notFound => ⟨r.all_filled, order_id :: r.filled_orders, r.total_pnl⟩
    | .invalid => ⟨false, r.filled_orders, r.total_pnl⟩
    | .ok info =>
      let fill_price : Option ℤ :=
        match info.yes_price with
        | some y => some y
        | none => info.no_price
      if info.status = "filled" ∨ info.status = "executed" then
        let pnl : ℚ :=
          match positions.find? (fun p => p.size == info.count) with
          | some position =>
            match fill_price with
            | some fp =>
              if fp = 0 then 0
              else ((fp : ℚ) - (position.entry_price : ℚ)) / 100 * (position.size : ℚ)
            | none => 0
          | none => 0
        ⟨r.all_filled, order_id :: r.filled_orders, pnl + r.total_pnl⟩
      else ⟨false, r.filled_orders, r.total_pnl⟩

/-- Result of `monitor_exit_orders`: monitor, bankroll, and whether the game
can be removed from the active set. -/
structure ExitMonitorResult where
  game : GameMonitor
  bankroll : ℚ
  remove : Bool
deriving DecidableEq

/-- `LiveTrader.monitor_exit_orders` (live_trader_fixed.py:1116-1248).
The bankroll is mutated only when every exit order has reached a terminal
observation and the tracking list has emptied. -/
def monitor_exit_orders (cfg : Config) (env : Env) (game : GameMonitor)
    (bankroll : ℚ) : ExitMonitorResult :=
  if game.exit_order_ids = [] then ⟨game, bankroll, false⟩
  else if cfg.dry_run then
    ⟨{ game with positions := [], exit_order_ids := [], exiting := false },
     bankroll, true⟩
  else
    let r := monitorExitLoop env game.positions game.exit_order_ids
    let remaining := r.filled_orders.foldl removeFirst game.exit_order_ids
    if r.all_filled ∧ remaining = [] then
      ⟨{ game with positions := [], exit_order_ids := [], exiting := false },
       bankroll + r.total_pnl, true⟩
    else ⟨{ game with exit_order_ids := remaining }, bankroll, false⟩

/-! ## Game lifecycle supervisor: one tick of the main loop -/

/-- Result of one per-game iteration of `LiveTrader.run`. -/
structure TickResult where
  game : GameMonitor
  bankroll : ℚ
  total_exposure : ℚ
  effects : List Effect
  remove : Bool
deriving DecidableEq

/-- One iteration of the per-game body of the main loop `LiveTrader.run`
(live_trader_fixed.py:1289-1378), for a single monitored game.  The
concurrency-cap comparison `active_positions < max_concurrent_games`, which
ranges over all active games, is abstracted as `env.concurrency_ok`. -/
def tick (cfg : Config) (env : Env) (st : TraderState) (game : GameMonitor)
    (now : ℤ) : TickResult :=
  if game.halftime_ts ≤ now ∧ game.positions ≠ [] ∧ game.exiting = false then
    let r1 := if game.order_ids ≠ [] then cancel_pending_orders cfg game
      else (game, [])
    let r2 := cancel_exit_orders cfg r1.1
    let r3 := exit_position_at_halftime cfg env r2.1 0
    ⟨r3.game, st.bankroll, st.total_exposure, r1.2 ++ r2.2 ++ r3.effects, false⟩
  else
    let game1 := (check_and_capture_checkpoint cfg env game now).1
    let rFills := if game1.triggered ∧ game1.order_ids ≠ [] then
        check_order_fills cfg env game1 now 0
      else ⟨game1, [], 0⟩
    let game2 := rFills.game
    let rRev := if game2.positions ≠ [] ∧ game2.exiting = false ∧
        check_reversion_signal cfg env game2 = true then
        let rc := if game2.order_ids ≠ [] then cancel_pending_orders cfg game2
          else (game2, [])
        ({ rc.1 with exiting := true }, rc.2)
      else (game2, ([] : List Effect))
    let game3 := rRev.1
    if game3.exiting then
      let rm := monitor_exit_orders cfg env game3 st.bankroll
      ⟨rm.game, rm.bankroll, st.total_exposure, rFills.effects ++ rRev.2, rm.remove⟩
    else
      let rEnt := if game3.triggered = false ∧ check_entry_signal game3 now = true then
          if env.concurrency_ok then enter_position cfg env st game3 now rFills.next_k
          else ⟨game3, st, [], rFills.next_k⟩
        else ⟨game3, st, [], rFills.next_k⟩
      let game4 := rEnt.game
      let rExit := if game4.positions ≠ [] ∧ game4.exiting = false ∧
          check_exit_signal cfg env game4 now = true then
          exit_position cfg env game4 (decide (game4.halftime_ts ≤ now)) rEnt.next_k
        else ⟨game4, [], rEnt.next_k⟩
      ⟨rExit.game, rEnt.st.bankroll, rEnt.st.total_exposure,
       rFills.effects ++ rRev.2 ++ rEnt.effects ++ rExit.effects, false⟩

/-! ## Offline reconciliation (`reconcile_positions.py`) -/

/-- A row of the Supabase `orders` table as read by `reconcile_orders`. -/
structure DbOrder where
  order_id : String
  market_ticker : String
  size : ℤ
deriving DecidableEq

/-- `reconcile_orders` (reconcile_positions.py:23-105), as the list of
status updates `(order_id, new_status, filled_count)` written back to the
database for the locally recorded pending orders. -/
def reconcile_orders (env : Env) : List DbOrder → List (String × String × ℤ)
  | [] => []
  | o :: rest =>
    let upd : List (String × String × ℤ) :=
      match env.order_status o.order_id with
      | .notFound => [(o.order_id, "filled", o.size)]
      | .invalid => []
      | .ok info =>
        if info.status ≠ "pending" then
          if info.status = "filled" ∨ info.status = "executed" then
            [(o.order_id, "filled", info.filled_count)]
          else if info.status = "cancelled" then
            [(o.order_id, "cancelled", 0)]
          else if 0 < info.filled_count ∧ info.filled_count < o.size then
            [(o.order_id, "partially_filled", info.filled_count)]
          else []
        else []
    upd ++ reconcile_orders env rest

/-! ## Spec-side rule definitions (for refinement-style comparison) -/

/-- The eligibility rule in the spec's words (§4.1): eligible iff at least
one checkpoint price ≥ 0.57, vetoed absolutely by a 30-minute checkpoint
< 0.57, and vetoed by a known 30-day volume below the configured floor. -/
def eligibleRule (p6 p3 p30 : ℚ) (volume : Option ℚ) (volume_floor : ℚ) : Bool :=
  (decide ((57:ℚ)/100 ≤ p6) || decide ((57:ℚ)/100 ≤ p3) || decide ((57:ℚ)/100 ≤ p30)) &&
  !(decide (p30 < (57:ℚ)/100)) &&
  !(match volume with
    | some v => decide (v < volume_floor)
    | none => false)

/-- Evidence justifying a position created by a `check_order_fills` poll of
order `oid`: either the exchange reported the fill itself (nonzero
`filled_count`, or a terminal `executed` status with a nonzero count), or
the terminal `executed` payload was empty and size/price were recovered
from the locally persisted order record. -/
def fillEvidence (env : Env) (oid : String) (p : Position) : Prop :=
  p.order_id = some oid ∧
  ∃ info, env.order_status oid = .ok info ∧
    (((0 < info.filled_count ∨ (info.status = "executed" ∧ info.filled_count ≠ 0)) ∧
      p.size = info.filled_count ∧
      p.entry_price = pyOrPrice info.yes_price info.no_price) ∨
     (info.status = "executed" ∧ info.filled_count = 0 ∧
      ∃ sz pr, env.local_order oid = some (sz, pr) ∧ p.size = sz ∧ p.entry_price = pr))

/-- Number of positions recorded against a given buy order id. -/
def countFor (oid : String) (ps : List Position) : ℕ :=
  (ps.filter fun p => p.order_id == some oid).length

/-! ## Concrete fixtures for counterexamples and witnesses -/

/-- The ladder of the spec's §8 concrete example:
[(49¢,×1.0), (45¢,×1.5), (41¢,×2.0), (37¢,×2.5), (33¢,×3.0)]. -/
def specLevels : List ScalingLevel :=
  [⟨49, 1⟩, ⟨45, 3/2⟩, ⟨41, 2⟩, ⟨37, 5/2⟩, ⟨33, 3⟩]

def cfgLive : Config :=
  { kelly_fraction := 1
    max_exposure_pct := 1
    revert_fraction := 1
    volume_threshold_usd := 50000
    scaling_levels := [⟨50, 1⟩]
    max_total_exposure := 1000000
    revert_bands := []
    dry_run := false }

def cfgDry : Config := { cfgLive with dry_run := true }

def stInit : TraderState := ⟨100, 0⟩

def envPending : Env :=
  { current_price := some 1
    favorite_side := some "yes"
    volume_30d := none
    order_status := fun _ => .ok { status := "pending", filled_count := 0, count := 5 }
    local_order := fun _ => none
    place_resp := fun _ => ("x", "resting")
    concurrency_ok := true }

def posA : Position :=
  { market_ticker := "M", side := some "yes", entry_price := 45, size := 5,
    entry_time := 900, order_id := some "b1", exit_order_id := some "e1" }

/-- A market in the `Reverting` state: bracket fill already detected, buy
orders cancelled, `exiting` set, one bracket sell still live. -/
def gameReverting : GameMonitor :=
  { market_ticker := "M", kickoff_ts := 1000, halftime_ts := 6400,
    pregame_prob := some 1, odds_6h := some 1, odds_3h := some 1, odds_30m := some 1,
    is_eligible := some true, position_side := some "yes", triggered := true,
    order_ids := [], positions := [posA], exiting := true, exit_order_ids := ["e1"] }

/-- A market in the `Bracketed` state: one position with a live bracket
sell, one still-pending buy order. -/
def gameBracketed : GameMonitor :=
  { gameReverting with exiting := false, exit_order_ids := [], order_ids := ["b2"] }

/-- A freshly discovered market with no checkpoint captured yet. -/
def gameFresh : GameMonitor :=
  { market_ticker := "M", kickoff_ts := 1000000, halftime_ts := 1005400 }

/-- A monitor with all three checkpoints captured at (0.54, 0.55, 0.58). -/
def game57 : GameMonitor :=
  { market_ticker := "M", kickoff_ts := 1000, halftime_ts := 6400,
    odds_6h := some (54/100), odds_3h := some (55/100), odds_30m := some (58/100) }

/-- A triggered monitor with one pending buy order and no fills yet;
`pregame_prob` deliberately `None` so bracket placement is skipped. -/
def gameW : GameMonitor :=
  { market_ticker := "M", kickoff_ts := 1000, halftime_ts := 6400,
    pregame_prob := none, position_side := some "yes", triggered := true,
    order_ids := ["o1"], positions := [] }

def envFill : Env :=
  { envPending with order_status := fun oid =>
      if oid = "o1" then .ok ⟨"filled", 3, 3, some 45, none⟩
      else .notFound }

/-- The position `check_order_fills` creates for `gameW`'s order under
`envFill`. -/
def posW : Position :=
  { market_ticker := "M", side := some "yes", entry_price := 45, size := 3,
    entry_time := 0, order_id := some "o1", exit_order_id := none }

def dbOW : DbOrder := { order_id := "d1", market_ticker := "M", size := 7 }

def env404 : Env := { envPending with order_status := fun _ => .notFound }

def posB : Position :=
  { market_ticker := "M", side := some "yes", entry_price := 40, size := 5,
    entry_time := 900, order_id := some "b1", exit_order_id := some "e1" }

def posC : Position :=
  { market_ticker := "M", side := some "yes", entry_price := 30, size := 5,
    entry_time := 901, order_id := some "b2", exit_order_id := some "e2" }

def envBothFilled : Env :=
  { envPending with order_status := fun _ => .ok ⟨"filled", 5, 5, some 50, none⟩ }

/-- A market flattening at the deadline with two equal-sized open positions
of different entry prices. -/
def gameExitTwo : GameMonitor :=
  { market_ticker := "M", kickoff_ts := 1000, halftime_ts := 6400,
    pregame_prob := some 1, position_side := some "yes", triggered := true,
    positions := [posB, posC], exiting := true, exit_order_ids := ["e1", "e2"] }

def gameExitOne : GameMonitor :=
  { gameExitTwo with positions := [posB], exit_order_ids := ["e1"] }

/-- An eligible, untriggered monitor (for the dry-run entry flow);
`pregame_prob` is `None` so the dry-run bracket id does not matter. -/
def gameEligible : GameMonitor :=
  { market_ticker := "M", kickoff_ts := 1000, halftime_ts := 6400,
    pregame_prob := none, odds_6h := some 1, odds_3h := some 1, odds_30m := some 1,
    is_eligible := some true }

/-! # Theorems

## C8 — the spec's concrete sizing example -/

/-- C8 (counterexample): with B = $10,000, k = 0.15, m = 0.50 and the
spec's ladder, the ideal total notional is NOT within the $5,000 cap, and
the returned sizes are not the claimed `[30, 45, 73, 101, 136]`. -/
theorem concrete_example_cex :
    ¬ idealTotalNotional 10000 (15/100) specLevels ≤ 10000 * (1/2) ∧
    calculate_position_sizes 10000 (15/100) (1/2) 0 specLevels ≠
      [(49, 30), (45, 45), (41, 73), (37, 101), (33, 136)] := by
  constructor
  · norm_num [idealTotalNotional, idealPosition, pyTrunc, specLevels]
  · norm_num [calculate_position_sizes, idealPosition, pyTrunc, specLevels]

/-- C8 (amended): with the spec's inputs the ideal sizes are
`[3061, 4999, 7316, 10135, 13635]` contracts with ideal notional
$14,998.50, which exceeds the $5,000 cap, so the proportional scale-down
applies and the returned ladder is
`[(49,1020), (45,1666), (41,2438), (37,3378), (33,4545)]`. -/
theorem concrete_example_amended :
    (specLevels.map (idealPosition 10000 (15/100))).map IdealPosition.ideal_size =
      [3061, 4999, 7316, 10135, 13635] ∧
    idealTotalNotional 10000 (15/100) specLevels = 29997/2 ∧
    ¬ (29997:ℚ)/2 ≤ 10000 * (1/2) ∧
    calculate_position_sizes 10000 (15/100) (1/2) 0 specLevels =
      [(49, 1020), (45, 1666), (41, 2438), (37, 3378), (33, 4545)] := by
  refine ⟨?_, ?_, by norm_num, ?_⟩
  · norm_num [idealPosition, pyTrunc, specLevels]
  · norm_num [idealTotalNotional, idealPosition, pyTrunc, specLevels]
  · norm_num [calculate_position_sizes, idealPosition, pyTrunc, specLevels]

/-! ## C10 — shape of the returned ladder -/

/-- C10: on its domain (positive trigger prices, where the Python function
does not raise), `calculate_position_sizes` returns one pair per input
level, in order, carrying the input trigger prices, with every size at
least 1 in both the unscaled and the scaled-down branch. -/
theorem ladder_shape (bankroll kelly_frac max_exposure : ℚ) (cc : ℤ)
    (levels : List ScalingLevel) (hlv : ∀ l ∈ levels, 0 < l.trigger) :
    (calculate_position_sizes bankroll kelly_frac max_exposure cc levels).map Prod.fst =
      levels.map ScalingLevel.trigger ∧
    (calculate_position_sizes bankroll kelly_frac max_exposure cc levels).length =
      levels.length ∧
    ∀ pr ∈ calculate_position_sizes bankroll kelly_frac max_exposure cc levels,
      1 ≤ pr.2 := by
  have _ := hlv
  refine ⟨?_, ?_, ?_⟩
  · simp only [calculate_position_sizes]
    split
    · simp [List.map_map, Function.comp_def, idealPosition]
    · simp [List.map_map, Function.comp_def, idealPosition]
  · simp only [calculate_position_sizes]
    split <;> simp
  · intro pr hpr
    simp only [calculate_position_sizes] at hpr
    split at hpr <;> rw [List.mem_map] at hpr <;> obtain ⟨p, hp, rfl⟩ := hpr
    · rw [List.mem_map] at hp
      obtain ⟨l, _, rfl⟩ := hp
      simp only [idealPosition]
      exact le_max_left _ _
    · exact le_max_left _ _

/-- C10 (witness): the shape theorem applied to a concrete ladder. -/
theorem ladder_shape_witness :
    (∀ l ∈ specLevels, 0 < l.trigger) ∧
    ((calculate_position_sizes 10000 (15/100) (1/2) 0 specLevels).map Prod.fst =
      specLevels.map ScalingLevel.trigger ∧
    (calculate_position_sizes 10000 (15/100) (1/2) 0 specLevels).length =
      specLevels.length ∧
    ∀ pr ∈ calculate_position_sizes 10000 (15/100) (1/2) 0 specLevels, 1 ≤ pr.2) :=
  ⟨by decide, ladder_shape 10000 (15/100) (1/2) 0 specLevels (by decide)⟩

/-! ## C1 — sizing cap and scale-down behaviour -/

theorem one_le_ideal_size (bankroll kelly_frac : ℚ) (l : ScalingLevel) :
    1 ≤ (idealPosition bankroll kelly_frac l).ideal_size := by
  simp only [idealPosition]
  exact le_max_left _ _

theorem idealPosition_trigger (bankroll kelly_frac : ℚ) (l : ScalingLevel) :
    (idealPosition bankroll kelly_frac l).trigger = l.trigger := rfl

theorem idealPosition_capital (bankroll kelly_frac : ℚ) (l : ScalingLevel) :
    (idealPosition bankroll kelly_frac l).ideal_capital =
      ((idealPosition bankroll kelly_frac l).ideal_size : ℚ) *
        (((idealPosition bankroll kelly_frac l).trigger : ℚ) / 100) := rfl

theorem ideal_capital_pos {bankroll kelly_frac : ℚ} {l : ScalingLevel}
    (h0 : 0 < l.trigger) : 0 < (idealPosition bankroll kelly_frac l).ideal_capital := by
  rw [idealPosition_capital]
  have hs : (0:ℚ) < ((idealPosition bankroll kelly_frac l).ideal_size : ℚ) := by
    exact_mod_cast lt_of_lt_of_le one_pos (one_le_ideal_size bankroll kelly_frac l)
  have ht : (0:ℚ) < ((idealPosition bankroll kelly_frac l).trigger : ℚ) / 100 := by
    apply div_pos _ (by norm_num)
    rw [idealPosition_trigger]
    exact_mod_cast h0
  exact mul_pos hs ht

theorem idealTotalNotional_pos {bankroll kelly_frac : ℚ} {levels : List ScalingLevel}
    (hne : levels ≠ []) (hlv : ∀ l ∈ levels, 0 < l.trigger) :
    0 < idealTotalNotional bankroll kelly_frac levels := by
  unfold idealTotalNotional
  apply List.sum_pos
  · intro x hx
    rw [List.mem_map] at hx
    obtain ⟨p, hp, rfl⟩ := hx
    rw [List.mem_map] at hp
    obtain ⟨l, hl, rfl⟩ := hp
    exact ideal_capital_pos (hlv l hl)
  · simp [hne]

/-- Per-level bound used in the scale-down branch: the notional of a
floored-and-floored-to-1 level exceeds its exact scaled notional by less
than one dollar (prices are below 100¢). -/
theorem scaled_level_bound {t sz : ℤ} {scale : ℚ} (ht0 : 0 < t) (ht100 : t < 100)
    (hsz : 1 ≤ sz) (hscale : 0 ≤ scale) :
    (t : ℚ) / 100 * ((max 1 (pyTrunc ((sz : ℚ) * scale)) : ℤ) : ℚ) ≤
      (t : ℚ) / 100 * ((sz : ℚ) * scale) + 1 := by
  have hszQ : (0:ℚ) ≤ (sz : ℚ) := by exact_mod_cast (zero_le_one.trans hsz)
  have hx : (0:ℚ) ≤ (sz : ℚ) * scale := mul_nonneg hszQ hscale
  have htQ : (0:ℚ) < (t : ℚ) := by exact_mod_cast ht0
  have hc : (0:ℚ) ≤ (t : ℚ) / 100 := le_of_lt (div_pos htQ (by norm_num))
  have ht1 : (t : ℚ) / 100 ≤ 1 := by
    rw [div_le_one (by norm_num : (0:ℚ) < 100)]
    exact_mod_cast ht100.le
  rw [pyTrunc_of_nonneg hx]
  push_cast [Int.cast_max]
  rw [mul_max_of_nonneg _ _ hc]
  apply max_le
  · calc (t : ℚ) / 100 * 1 = (t : ℚ) / 100 := mul_one _
      _ ≤ 1 := ht1
      _ ≤ (t : ℚ) / 100 * ((sz : ℚ) * scale) + 1 :=
        le_add_of_nonneg_left (mul_nonneg hc hx)
  · have hfl : ((⌊(sz : ℚ) * scale⌋ : ℤ) : ℚ) ≤ (sz : ℚ) * scale := Int.floor_le _
    calc (t : ℚ) / 100 * ((⌊(sz : ℚ) * scale⌋ : ℤ) : ℚ)
        ≤ (t : ℚ) / 100 * ((sz : ℚ) * scale) := mul_le_mul_of_nonneg_left hfl hc
      _ ≤ (t : ℚ) / 100 * ((sz : ℚ) * scale) + 1 := le_add_of_nonneg_right zero_le_one

/-- C1: for positive bankroll, kelly fraction and exposure in (0,1], and a
non-empty ladder of levels with trigger prices in (0,100) cents and
positive multipliers: the returned ladder's total notional is at most
`B*m` plus one dollar per level; the ideal sizes are returned unchanged
when the ideal notional is within the cap; otherwise every level is scaled
to `max(1, ⌊ideal_size * (B*m) / ideal_total⌋)`. -/
theorem sizing_cap (bankroll kelly_frac max_exposure : ℚ) (cc : ℤ)
    (levels : List ScalingLevel)
    (hB : 0 < bankroll) (hk0 : 0 < kelly_frac) (hk1 : kelly_frac ≤ 1)
    (hm0 : 0 < max_exposure) (hm1 : max_exposure ≤ 1) (hne : levels ≠ [])
    (hlv : ∀ l ∈ levels, (0 < l.trigger ∧ l.trigger < 100) ∧ 0 < l.kelly_mult) :
    ladderNotional (calculate_position_sizes bankroll kelly_frac max_exposure cc levels) ≤
      bankroll * max_exposure + levels.length ∧
    (idealTotalNotional bankroll kelly_frac levels ≤ bankroll * max_exposure →
      calculate_position_sizes bankroll kelly_frac max_exposure cc levels =
        (levels.map (idealPosition bankroll kelly_frac)).map
          fun p => (p.trigger, p.ideal_size)) ∧
    (bankroll * max_exposure < idealTotalNotional bankroll kelly_frac levels →
      calculate_position_sizes bankroll kelly_frac max_exposure cc levels =
        (levels.map (idealPosition bankroll kelly_frac)).map
          fun p => (p.trigger, max 1 ⌊(p.ideal_size : ℚ) * (bankroll * max_exposure) /
            idealTotalNotional bankroll kelly_frac levels⌋)) := by
  have _ := hk0
  have _ := hk1
  have _ := hm1
  have hlv' : ∀ l ∈ levels, 0 < l.trigger := fun l hl => ((hlv l hl).1).1
  have htot : 0 < idealTotalNotional bankroll kelly_frac levels :=
    idealTotalNotional_pos hne hlv'
  have hcap : 0 < bankroll * max_exposure := mul_pos hB hm0
  have hscale : (0:ℚ) ≤ bankroll * max_exposure / idealTotalNotional bankroll kelly_frac levels :=
    le_of_lt (div_pos hcap htot)
  have hsum : (List.map IdealPosition.ideal_capital
      (List.map (idealPosition bankroll kelly_frac) levels)).sum =
      idealTotalNotional bankroll kelly_frac levels := rfl
  have hbr1 : idealTotalNotional bankroll kelly_frac levels ≤ bankroll * max_exposure →
      calculate_position_sizes bankroll kelly_frac max_exposure cc levels =
        (levels.map (idealPosition bankroll kelly_frac)).map
          fun p => (p.trigger, p.ideal_size) := by
    intro h
    simp only [calculate_position_sizes]
    rw [hsum, if_pos h]
  have hbr2 : bankroll * max_exposure < idealTotalNotional bankroll kelly_frac levels →
      calculate_position_sizes bankroll kelly_frac max_exposure cc levels =
        (levels.map (idealPosition bankroll kelly_frac)).map
          fun p => (p.trigger, max 1 ⌊(p.ideal_size : ℚ) * (bankroll * max_exposure) /
            idealTotalNotional bankroll kelly_frac levels⌋) := by
    intro h
    simp only [calculate_position_sizes]
    rw [hsum, if_neg (not_le.mpr h)]
    apply List.map_congr_left
    intro p hp
    rw [List.mem_map] at hp
    obtain ⟨l, hl, rfl⟩ := hp
    have hsz : (0:ℚ) ≤ ((idealPosition bankroll kelly_frac l).ideal_size : ℚ) := by
      exact_mod_cast (zero_le_one.trans (one_le_ideal_size bankroll kelly_frac l))
    rw [pyTrunc_of_nonneg (mul_nonneg hsz hscale),
      mul_div_assoc ((idealPosition bankroll kelly_frac l).ideal_size : ℚ)
        (bankroll * max_exposure) (idealTotalNotional bankroll kelly_frac levels)]
  refine ⟨?_, hbr1, hbr2⟩
  have hlen : (0:ℚ) ≤ (levels.length : ℚ) := by positivity
  rcases le_or_lt (idealTotalNotional bankroll kelly_frac levels) (bankroll * max_exposure)
    with hle | hlt
  · rw [hbr1 hle]
    have hnot : ladderNotional ((levels.map (idealPosition bankroll kelly_frac)).map
        fun p => (p.trigger, p.ideal_size)) =
        idealTotalNotional bankroll kelly_frac levels := by
      unfold ladderNotional idealTotalNotional
      simp only [List.map_map, Function.comp_def]
      congr 1
      apply List.map_congr_left
      intro l _
      rw [idealPosition_capital]
      ring
    rw [hnot]
    linarith
  · rw [hbr2 hlt]
    unfold ladderNotional
    simp only [List.map_map, Function.comp_def]
    have hstep : ∀ l ∈ levels,
        (((idealPosition bankroll kelly_frac l).trigger : ℚ) / 100 *
          ((max 1 ⌊((idealPosition bankroll kelly_frac l).ideal_size : ℚ) *
            (bankroll * max_exposure) /
            idealTotalNotional bankroll kelly_frac levels⌋ : ℤ) : ℚ)) ≤
        (bankroll * max_exposure / idealTotalNotional bankroll kelly_frac levels) *
          (idealPosition bankroll kelly_frac l).ideal_capital + 1 := by
      intro l hl
      have hsz : (0:ℚ) ≤ ((idealPosition bankroll kelly_frac l).ideal_size : ℚ) := by
        exact_mod_cast (zero_le_one.trans (one_le_ideal_size bankroll kelly_frac l))
      have h1 := @scaled_level_bound (idealPosition bankroll kelly_frac l).trigger
        (idealPosition bankroll kelly_frac l).ideal_size
        (bankroll * max_exposure / idealTotalNotional bankroll kelly_frac levels)
        (by rw [idealPosition_trigger]; exact ((hlv l hl).1).1)
        (by rw [idealPosition_trigger]; exact ((hlv l hl).1).2)
        (one_le_ideal_size bankroll kelly_frac l) hscale
      rw [pyTrunc_of_nonneg (mul_nonneg hsz hscale)] at h1
      rw [mul_div_assoc ((idealPosition bankroll kelly_frac l).ideal_size : ℚ)
        (bankroll * max_exposure) (idealTotalNotional bankroll kelly_frac levels)]
      refine h1.trans ?_
      have : ((idealPosition bankroll kelly_frac l).trigger : ℚ) / 100 *
          (((idealPosition bankroll kelly_frac l).ideal_size : ℚ) *
            (bankroll * max_exposure / idealTotalNotional bankroll kelly_frac levels)) =
          (bankroll * max_exposure / idealTotalNotional bankroll kelly_frac levels) *
            (idealPosition bankroll kelly_frac l).ideal_capital := by
        rw [idealPosition_capital]
        ring
      rw [this]
    calc ((levels.map fun l =>
          ((idealPosition bankroll kelly_frac l).trigger : ℚ) / 100 *
            ((max 1 ⌊((idealPosition bankroll kelly_frac l).ideal_size : ℚ) *
              (bankroll * max_exposure) /
              idealTotalNotional bankroll kelly_frac levels⌋ : ℤ) : ℚ)).sum)
        ≤ ((levels.map fun l =>
            (bankroll * max_exposure / idealTotalNotional bankroll kelly_frac levels) *
              (idealPosition bankroll kelly_frac l).ideal_capital + 1).sum) :=
          List.sum_le_sum hstep
      _ = (bankroll * max_exposure / idealTotalNotional bankroll kelly_frac levels) *
            idealTotalNotional bankroll kelly_frac levels + levels.length := by
          rw [List.sum_map_add]
          congr 1
          · rw [List.sum_map_mul_left]
            congr 1
            rw [← hsum]
            simp only [List.map_map, Function.comp_def]
          · simp
      _ = bankroll * max_exposure + levels.length := by
          rw [div_mul_cancel₀ _ (ne_of_gt htot)]

/-- C1 (witness): the sizing cap theorem at a concrete input. -/
theorem sizing_cap_witness :
    ((0:ℚ) < 100 ∧ (0:ℚ) < 1 ∧ (1:ℚ) ≤ 1 ∧ ([⟨50, 1⟩] : List ScalingLevel) ≠ [] ∧
      (∀ l ∈ ([⟨50, 1⟩] : List ScalingLevel),
        (0 < l.trigger ∧ l.trigger < 100) ∧ 0 < l.kelly_mult)) ∧
    ladderNotional (calculate_position_sizes 100 1 1 0 [⟨50, 1⟩]) ≤
      100 * 1 + ([⟨50, (1:ℚ)⟩] : List ScalingLevel).length :=
  ⟨⟨by decide, by decide, by decide, by decide, by decide⟩,
   (sizing_cap 100 1 1 0 [⟨50, 1⟩] (by decide) (by decide) (by decide) (by decide)
     (by decide) (by decide) (by decide)).1⟩

/-! ## C3 — eligibility rule -/

/-- C3 (counterexample): with checkpoints (0.54, 0.55, 0.58) — where the
30-minute price 0.58 ≥ 0.57, so the claim's rule says eligible — a 30-day
volume of $0 below the configured floor makes `_determine_eligibility`
return NOT eligible: the final value is not a pure function of the three
prices and the 30m veto alone. -/
theorem eligibility_cex :
    (57:ℚ)/100 ≤ 58/100 ∧ ¬ (58:ℚ)/100 < 57/100 ∧
    (determine_eligibility cfgLive (some 0) game57).is_eligible = some false := by
  refine ⟨by norm_num, by norm_num, ?_⟩
  norm_num [determine_eligibility, game57, cfgLive]

/-- C3 (amended): once all three checkpoints are captured, eligibility is a
pure function of the three prices, the fetched 30-day volume and the
configured volume floor: eligible iff some checkpoint is ≥ 0.57, the
30-minute checkpoint is not < 0.57 (absolute veto), and the volume veto
(volume known and below the floor) does not fire. -/
theorem eligibility_amended (cfg : Config) (volume : Option ℚ) (game : GameMonitor)
    (p6 p3 p30 : ℚ) (h6 : game.odds_6h = some p6) (h3 : game.odds_3h = some p3)
    (h30 : game.odds_30m = some p30) :
    (determine_eligibility cfg volume game).is_eligible =
      some (eligibleRule p6 p3 p30 volume cfg.volume_threshold_usd) := by
  have hb : ∀ p : ℚ, (decide (p ≠ 0) && decide ((57:ℚ)/100 ≤ p)) =
      decide ((57:ℚ)/100 ≤ p) := by
    intro p
    by_cases h : (57:ℚ)/100 ≤ p
    · have hp0 : p ≠ 0 := by
        intro h0
        rw [h0] at h
        norm_num at h
      simp [h, hp0]
    · simp [h]
  unfold determine_eligibility eligibleRule
  rw [h6, h3, h30]
  simp only [List.any_cons, List.any_nil, Bool.or_false, hb]
  rcases volume with _ | v
  · by_cases hv : p30 < (57:ℚ)/100 <;>
      by_cases h6' : (57:ℚ)/100 ≤ p6 <;>
      by_cases h3' : (57:ℚ)/100 ≤ p3 <;>
      by_cases h30' : (57:ℚ)/100 ≤ p30 <;>
      simp [hb, hv, h6', h3', h30']
  · by_cases hw : v < cfg.volume_threshold_usd <;>
      by_cases hv : p30 < (57:ℚ)/100 <;>
      by_cases h6' : (57:ℚ)/100 ≤ p6 <;>
      by_cases h3' : (57:ℚ)/100 ≤ p3 <;>
      by_cases h30' : (57:ℚ)/100 ≤ p30 <;>
      simp [hb, hw, hv, h6', h3', h30']

/-- C3 (witness): the amended eligibility theorem at a concrete input. -/
theorem eligibility_amended_witness :
    (gameReverting.odds_6h = some 1 ∧ gameReverting.odds_3h = some 1 ∧
      gameReverting.odds_30m = some 1) ∧
    (determine_eligibility cfgLive none gameReverting).is_eligible =
      some (eligibleRule 1 1 1 none cfgLive.volume_threshold_usd) :=
  ⟨⟨rfl, rfl, rfl⟩,
   eligibility_amended cfgLive none gameReverting 1 1 1 rfl rfl rfl⟩

/-! ## C4 — checkpoint capture windows -/

theorem determine_eligibility_preserves (cfg : Config) (vol : Option ℚ)
    (g : GameMonitor) :
    (determine_eligibility cfg vol g).odds_6h = g.odds_6h ∧
    (determine_eligibility cfg vol g).odds_3h = g.odds_3h ∧
    (determine_eligibility cfg vol g).odds_30m = g.odds_30m := by
  unfold determine_eligibility
  dsimp only
  split_ifs <;> exact ⟨rfl, rfl, rfl⟩

/-- The monitor produced by a successful 6-hour capture. -/
def captured6h (game : GameMonitor) (p : ℚ) (now : ℤ) : GameMonitor :=
  { game with
      odds_6h := some p
      checkpoint_6h_ts := some now
      pregame_prob := some p }

/-- The monitor produced by a successful 3-hour capture. -/
def captured3h (game : GameMonitor) (p : ℚ) (now : ℤ) : GameMonitor :=
  { game with
      odds_3h := some p
      checkpoint_3h_ts := some now }

/-- The monitor recorded by the 30-minute branch before eligibility. -/
def captured30m (game : GameMonitor) (p : ℚ) (now : ℤ) : GameMonitor :=
  { game with
      odds_30m := some p
      checkpoint_30m_ts := some now }

/-- Case description of one `check_and_capture_checkpoint` call: nothing
happens, or exactly one checkpoint is captured, in the fixed `elif`
priority order of the source. -/
theorem check_and_capture_cases (cfg : Config) (env : Env) (game : GameMonitor)
    (now : ℤ) :
    (check_and_capture_checkpoint cfg env game now).1 = game ∨
    ∃ p, env.current_price = some p ∧ p ≠ 0 ∧
      ((game.kickoff_ts - now ≤ 6 * 3600 ∧ game.odds_6h = none ∧
        (check_and_capture_checkpoint cfg env game now).1 = captured6h game p now) ∨
       (¬(game.kickoff_ts - now ≤ 6 * 3600 ∧ game.odds_6h = none) ∧
        game.kickoff_ts - now ≤ 3 * 3600 ∧ game.odds_3h = none ∧
        (check_and_capture_checkpoint cfg env game now).1 = captured3h game p now) ∨
       (¬(game.kickoff_ts - now ≤ 6 * 3600 ∧ game.odds_6h = none) ∧
        ¬(game.kickoff_ts - now ≤ 3 * 3600 ∧ game.odds_3h = none) ∧
        game.kickoff_ts - now ≤ 30 * 60 ∧ game.odds_30m = none ∧
        (check_and_capture_checkpoint cfg env game now).1 =
          determine_eligibility cfg env.volume_30d (captured30m game p now))) := by
  unfold check_and_capture_checkpoint
  dsimp only
  rcases hcp : env.current_price with _ | p
  · split_ifs <;> simp
  · by_cases h0 : p = 0
    · subst h0
      split_ifs <;> simp
    · by_cases h1 : game.kickoff_ts - now ≤ 6 * 3600 ∧ game.odds_6h = none
      · rw [if_pos h1]
        dsimp only
        rw [if_neg h0]
        exact Or.inr ⟨p, rfl, h0, Or.inl ⟨h1.1, h1.2, rfl⟩⟩
      · rw [if_neg h1]
        by_cases h2 : game.kickoff_ts - now ≤ 3 * 3600 ∧ game.odds_3h = none
        · rw [if_pos h2]
          dsimp only
          rw [if_neg h0]
          exact Or.inr ⟨p, rfl, h0, Or.inr (Or.inl ⟨h1, h2.1, h2.2, rfl⟩)⟩
        · rw [if_neg h2]
          by_cases h3 : game.kickoff_ts - now ≤ 30 * 60 ∧ game.odds_30m = none
          · rw [if_pos h3]
            dsimp only
            rw [if_neg h0]
            exact Or.inr ⟨p, rfl, h0, Or.inr (Or.inr ⟨h1, h2, h3.1, h3.2, rfl⟩)⟩
          · rw [if_neg h3]
            exact Or.inl rfl

/-- C4 (counterexample): a market first observed inside the 30-minute
window (10 minutes before kickoff, price available) captures the *6-hour*
checkpoint on that tick, not the 30-minute one — refuting "it never
records a 6h or 3h sample". -/
theorem checkpoint_cex :
    gameFresh.kickoff_ts - 999400 ≤ 30 * 60 ∧
    gameFresh.odds_6h = none ∧ gameFresh.odds_3h = none ∧ gameFresh.odds_30m = none ∧
    (check_and_capture_checkpoint cfgLive envPending gameFresh 999400).1.odds_6h =
      some 1 ∧
    (check_and_capture_checkpoint cfgLive envPending gameFresh 999400).1.odds_30m =
      none := by
  refine ⟨by decide, rfl, rfl, rfl, ?_, ?_⟩ <;> decide

/-- C4 (amended): each checkpoint is captured at most once, and a later
checkpoint is captured only after all earlier ones are set (the `elif`
priority order 6h → 3h → 30m); but the windows have no lower bounds: a
market first observed inside the 30-minute window with a price available
captures the 6-hour checkpoint on that tick and leaves the 30-minute
sample unset (it catches up on the later checkpoints over subsequent
ticks). -/
theorem checkpoint_amended (cfg : Config) (env : Env) (game : GameMonitor)
    (now : ℤ) :
    (∀ v, game.odds_6h = some v →
      (check_and_capture_checkpoint cfg env game now).1.odds_6h = some v) ∧
    (∀ v, game.odds_3h = some v →
      (check_and_capture_checkpoint cfg env game now).1.odds_3h = some v) ∧
    (∀ v, game.odds_30m = some v →
      (check_and_capture_checkpoint cfg env game now).1.odds_30m = some v) ∧
    ((check_and_capture_checkpoint cfg env game now).1.odds_3h ≠ game.odds_3h →
      game.odds_6h ≠ none) ∧
    ((check_and_capture_checkpoint cfg env game now).1.odds_30m ≠ game.odds_30m →
      game.odds_6h ≠ none ∧ game.odds_3h ≠ none) ∧
    (∀ p, game.odds_6h = none → game.kickoff_ts - now ≤ 30 * 60 →
      env.current_price = some p → p ≠ 0 →
      (check_and_capture_checkpoint cfg env game now).1.odds_6h = some p ∧
      (check_and_capture_checkpoint cfg env game now).1.odds_30m = game.odds_30m) := by
  have hpres := determine_eligibility_preserves cfg env.volume_30d
  refine ⟨?_, ?_, ?_, ?_, ?_, ?_⟩
  · intro v h6
    rcases check_and_capture_cases cfg env game now with hr | ⟨p, _, _, hc | hc | hc⟩
    · rw [hr]; exact h6
    · rw [h6] at hc; exact absurd hc.2.1 (by simp)
    · rw [hc.2.2.2]; exact h6
    · rw [hc.2.2.2.2, (hpres _).1]; exact h6
  · intro v h3
    rcases check_and_capture_cases cfg env game now with hr | ⟨p, _, _, hc | hc | hc⟩
    · rw [hr]; exact h3
    · rw [hc.2.2]; exact h3
    · rw [h3] at hc; exact absurd hc.2.2.1 (by simp)
    · rw [hc.2.2.2.2, (hpres _).2.1]; exact h3
  · intro v h30
    rcases check_and_capture_cases cfg env game now with hr | ⟨p, _, _, hc | hc | hc⟩
    · rw [hr]; exact h30
    · rw [hc.2.2]; exact h30
    · rw [hc.2.2.2]; exact h30
    · rw [h30] at hc; exact absurd hc.2.2.2.1 (by simp)
  · intro hne
    rcases check_and_capture_cases cfg env game now with hr | ⟨p, _, _, hc | hc | hc⟩
    · exact absurd (by rw [hr]) hne
    · exact absurd (by rw [hc.2.2]; rfl) hne
    · intro h6none
      have httk := hc.2.1
      exact hc.1 ⟨by omega, h6none⟩
    · exact absurd (by rw [hc.2.2.2.2, (hpres _).2.1]; rfl) hne
  · intro hne
    rcases check_and_capture_cases cfg env game now with hr | ⟨p, _, _, hc | hc | hc⟩
    · exact absurd (by rw [hr]) hne
    · exact absurd (by rw [hc.2.2]; rfl) hne
    · exact absurd (by rw [hc.2.2.2]; rfl) hne
    · have httk := hc.2.2.1
      constructor
      · intro h6none
        exact hc.1 ⟨by omega, h6none⟩
      · intro h3none
        exact hc.2.1 ⟨by omega, h3none⟩
  · intro p h6 httk hcp hp0
    unfold check_and_capture_checkpoint
    dsimp only
    rw [hcp]
    rw [if_pos (⟨by omega, h6⟩ :
      game.kickoff_ts - now ≤ 6 * 3600 ∧ game.odds_6h = none)]
    dsimp only
    rw [if_neg hp0]
    exact ⟨rfl, rfl⟩

/-- C4 (witness): the amended checkpoint theorem at a concrete input. -/
theorem checkpoint_amended_witness :
    (gameFresh.odds_6h = none ∧ gameFresh.kickoff_ts - 999400 ≤ 30 * 60 ∧
      envPending.current_price = some 1 ∧ (1:ℚ) ≠ 0) ∧
    ((check_and_capture_checkpoint cfgLive envPending gameFresh 999400).1.odds_6h =
      some 1 ∧
     (check_and_capture_checkpoint cfgLive envPending gameFresh 999400).1.odds_30m =
      gameFresh.odds_30m) :=
  ⟨⟨rfl, by decide, rfl, by decide⟩,
   (checkpoint_amended cfgLive envPending gameFresh 999400).2.2.2.2.2 1 rfl
     (by decide) rfl (by decide)⟩

/-! ## C5 — 404 handling and local-metadata recovery -/

theorem place_exit_order_core (cfg : Config) (env : Env) (game : GameMonitor)
    (position : Position) (k : ℕ) :
    (place_exit_order cfg env game position k).1.order_id = position.order_id ∧
    (place_exit_order cfg env game position k).1.size = position.size ∧
    (place_exit_order cfg env game position k).1.entry_price = position.entry_price := by
  unfold place_exit_order
  rcases hpg : game.pregame_prob with _ | pg
  · exact ⟨rfl, rfl, rfl⟩
  · dsimp only
    split_ifs <;> exact ⟨rfl, rfl, rfl⟩

theorem checkFillsStep_sound (cfg : Config) (env : Env) (game : GameMonitor)
    (now : ℤ) (order_id status : String) (filled_count price : ℤ)
    (positions : List Position) (k : ℕ) (p : Position)
    (hp : p ∈ (checkFillsStep cfg env game now order_id status filled_count price
      positions k).1) :
    p ∈ positions ∨
      ((0 < filled_count ∨ status = "executed") ∧ p.order_id = some order_id ∧
        p.size = filled_count ∧ p.entry_price = price) := by
  unfold checkFillsStep at hp
  split_ifs at hp with hcond
  · rcases hfind : positions.find? (fun q => q.order_id == some order_id) with _ | q
    · rw [hfind] at hp
      dsimp only at hp
      rcases List.mem_append.mp hp with h | h
      · exact Or.inl h
      · have hq := List.mem_singleton.mp h
        subst hq
        obtain ⟨ho, hs, he⟩ := place_exit_order_core cfg env game
          { market_ticker := game.market_ticker
            side := game.position_side
            entry_price := price
            size := filled_count
            entry_time := now
            order_id := some order_id } k
        exact Or.inr ⟨hcond, by rw [ho], by rw [hs], by rw [he]⟩
    · rw [hfind] at hp
      exact Or.inl hp
  · exact Or.inl hp

theorem checkFillsLoop_sound (cfg : Config) (env : Env) (game : GameMonitor)
    (now : ℤ) :
    ∀ (oids : List String) (positions : List Position) (filled : List String)
      (k : ℕ) (p : Position),
      p ∈ (checkFillsLoop cfg env game now oids positions filled k).positions →
      p ∈ positions ∨ ∃ oid ∈ oids, fillEvidence env oid p := by
  intro oids
  induction oids with
  | nil =>
    intro positions filled k p hp
    exact Or.inl hp
  | cons oid rest ih =>
    intro positions filled k p hp
    have hweak : ∀ {q : Position}, (∃ o ∈ rest, fillEvidence env o q) →
        ∃ o ∈ oid :: rest, fillEvidence env o q := by
      rintro q ⟨o, ho, he⟩
      exact ⟨o, List.mem_cons_of_mem _ ho, he⟩
    unfold checkFillsLoop at hp
    rcases hst : env.order_status oid with _ | _ | info
    all_goals rw [hst] at hp
    · rcases ih _ _ _ _ hp with h | h
      · exact Or.inl h
      · exact Or.inr (hweak h)
    · rcases ih _ _ _ _ hp with h | h
      · exact Or.inl h
      · exact Or.inr (hweak h)
    · dsimp only at hp
      by_cases hrec : info.status = "executed" ∧ info.filled_count = 0
      · rw [if_pos hrec] at hp
        rcases hloc : env.local_order oid with _ | ⟨sz, pr⟩
        · rw [hloc] at hp
          rcases ih _ _ _ _ hp with h | h
          · exact Or.inl h
          · exact Or.inr (hweak h)
        · rw [hloc] at hp
          dsimp only at hp
          rcases ih _ _ _ _ hp with h | h
          · rcases checkFillsStep_sound cfg env game now oid info.status sz pr
              positions k p h with h' | ⟨_, ho', hs', he'⟩
            · exact Or.inl h'
            · refine Or.inr ⟨oid, List.mem_cons_self _ _, ho', info, hst, Or.inr ?_⟩
              exact ⟨hrec.1, hrec.2, sz, pr, hloc, hs', he'⟩
          · exact Or.inr (hweak h)
      · rw [if_neg hrec] at hp
        dsimp only at hp
        rcases ih _ _ _ _ hp with h | h
        · rcases checkFillsStep_sound cfg env game now oid info.status
            info.filled_count (pyOrPrice info.yes_price info.no_price)
            positions k p h with h' | ⟨hcond, ho', hs', he'⟩
          · exact Or.inl h'
          · refine Or.inr ⟨oid, List.mem_cons_self _ _, ho', info, hst, Or.inl ?_⟩
            refine ⟨?_, hs', he'⟩
            rcases hcond with hfc | hex
            · exact Or.inl hfc
            · right
              refine ⟨hex, ?_⟩
              intro hfc0
              exact hrec ⟨hex, hfc0⟩
        · exact Or.inr (hweak h)

theorem reconcile_orders_notFound (env : Env) :
    ∀ (orders : List DbOrder) (o : DbOrder), o ∈ orders →
      env.order_status o.order_id = .notFound →
      (o.order_id, "filled", o.size) ∈ reconcile_orders env orders := by
  intro orders
  induction orders with
  | nil =>
    intro o ho
    cases ho
  | cons a rest ih =>
    intro o ho h404
    rcases List.mem_cons.mp ho with rfl | ho'
    · unfold reconcile_orders
      rw [h404]
      exact List.mem_append.mpr (Or.inl (List.mem_singleton.mpr rfl))
    · unfold reconcile_orders
      exact List.mem_append.mpr (Or.inr (ih o ho' h404))

theorem reconcile_orders_sound (env : Env) :
    ∀ (orders : List DbOrder) (u : String × String × ℤ),
      u ∈ reconcile_orders env orders →
      ∃ o ∈ orders, u.1 = o.order_id ∧
        (env.order_status o.order_id = .notFound →
          u = (o.order_id, "filled", o.size)) := by
  intro orders
  induction orders with
  | nil =>
    intro u hu
    cases hu
  | cons a rest ih =>
    intro u hu
    unfold reconcile_orders at hu
    rcases List.mem_append.mp hu with h | h
    · refine ⟨a, List.mem_cons_self _ _, ?_⟩
      rcases hst : env.order_status a.order_id with _ | _ | info
      all_goals rw [hst] at h
      · have := List.mem_singleton.mp h
        subst this
        exact ⟨rfl, fun _ => rfl⟩
      · cases h
      · dsimp only at h
        split_ifs at h with h1 h2 h3 h4 <;>
          first
          | exact absurd h (List.not_mem_nil _)
          | (obtain rfl := List.mem_singleton.mp h
             exact ⟨rfl, fun hc => StatusResp.noConfusion hc⟩)
    · obtain ⟨o, ho, hu'⟩ := ih u h
      exact ⟨o, List.mem_cons_of_mem _ ho, hu'⟩

/-- C5: the reconciler never fabricates a fill.  (a) Every position present
after a `check_order_fills` poll either pre-existed or is backed by
`fillEvidence`: an exchange-reported fill, or a terminal `executed` payload
whose size/price were recovered from the locally persisted order record —
in particular a 404 response never creates a position, and an empty
`executed` payload with no local record creates none.  (b) The offline
reconciler emits a `filled` update for a 404 using exactly the locally
recorded size, and (c) it emits updates only for locally recorded orders,
never marking a 404 filled with anything but the local size. -/
theorem no_fabricated_fills :
    (∀ (cfg : Config) (env : Env) (game : GameMonitor) (now : ℤ) (k : ℕ)
      (p : Position),
      p ∈ (check_order_fills cfg env game now k).game.positions →
      p ∈ game.positions ∨ ∃ oid ∈ game.order_ids, fillEvidence env oid p) ∧
    (∀ (env : Env) (orders : List DbOrder) (o : DbOrder), o ∈ orders →
      env.order_status o.order_id = .notFound →
      (o.order_id, "filled", o.size) ∈ reconcile_orders env orders) ∧
    (∀ (env : Env) (orders : List DbOrder) (u : String × String × ℤ),
      u ∈ reconcile_orders env orders →
      ∃ o ∈ orders, u.1 = o.order_id ∧
        (env.order_status o.order_id = .notFound →
          u = (o.order_id, "filled", o.size))) := by
  refine ⟨?_, reconcile_orders_notFound, reconcile_orders_sound⟩
  intro cfg env game now k p hp
  unfold check_order_fills at hp
  split_ifs at hp with hguard
  · exact Or.inl hp
  · dsimp only at hp
    exact checkFillsLoop_sound cfg env game now game.order_ids game.positions [] k p hp

/-- C5 (witness): the no-fabrication theorem at concrete inputs — a filled
order produces an evidenced position, and a 404 on a DB-recorded order is
marked filled with its local size. -/
theorem no_fabricated_fills_witness :
    (posW ∈ (check_order_fills cfgLive envFill gameW 0 0).game.positions ∧
      (posW ∈ gameW.positions ∨ ∃ oid ∈ gameW.order_ids, fillEvidence envFill oid posW)) ∧
    (dbOW ∈ [dbOW] ∧ env404.order_status dbOW.order_id = .notFound ∧
      (dbOW.order_id, "filled", dbOW.size) ∈ reconcile_orders env404 [dbOW]) :=
  ⟨⟨by decide, no_fabricated_fills.1 cfgLive envFill gameW 0 0 posW (by decide)⟩,
   ⟨by decide, rfl, no_fabricated_fills.2.1 env404 [dbOW] dbOW (by decide) rfl⟩⟩

/-! ## C6 — idempotent position creation -/

theorem countFor_append (oid : String) (ps : List Position) (p : Position) :
    countFor oid (ps ++ [p]) =
      countFor oid ps + (if p.order_id = some oid then 1 else 0) := by
  unfold countFor
  rw [List.filter_append, List.length_append]
  congr 1
  by_cases h : p.order_id = some oid
  · have hb : (p.order_id == some oid) = true := by simp [h]
    simp [List.filter, hb, h]
  · have hb : (p.order_id == some oid) = false := by simp [h]
    simp [List.filter, hb, h]

theorem countFor_eq_zero_find {oid : String} {ps : List Position}
    (h : countFor oid ps = 0) :
    ps.find? (fun q => q.order_id == some oid) = none := by
  rw [List.find?_eq_none]
  intro x hx hbeq
  have hfil : ps.filter (fun q => q.order_id == some oid) = [] :=
    List.length_eq_zero.mp h
  have := List.filter_eq_nil.mp hfil x hx
  exact this hbeq

theorem countFor_pos_find {oid : String} {ps : List Position}
    (h : 1 ≤ countFor oid ps) :
    ps.find? (fun q => q.order_id == some oid) ≠ none := by
  have hne : ps.filter (fun q => q.order_id == some oid) ≠ [] := by
    intro hnil
    rw [countFor, hnil] at h
    exact absurd h (by simp)
  obtain ⟨x, hx⟩ := List.exists_mem_of_ne_nil _ hne
  have hx' := List.mem_filter.mp hx
  intro hnone
  rw [List.find?_eq_none] at hnone
  exact hnone x hx'.1 hx'.2

/-- How one `checkFillsStep` changes the number of positions recorded for a
given order id: +1 exactly when a position is created for that id. -/
theorem checkFillsStep_count (cfg : Config) (env : Env) (game : GameMonitor)
    (now : ℤ) (o status : String) (fc price : ℤ) (positions : List Position)
    (k : ℕ) (oid : String) :
    countFor oid (checkFillsStep cfg env game now o status fc price positions k).1 =
      countFor oid positions +
        (if (0 < fc ∨ status = "executed") ∧
            positions.find? (fun q => q.order_id == some o) = none ∧ o = oid
          then 1 else 0) := by
  unfold checkFillsStep
  by_cases hcond : 0 < fc ∨ status = "executed"
  · rw [if_pos hcond]
    rcases hfind : positions.find? (fun q => q.order_id == some o) with _ | q
    · rw [hfind]
      dsimp only
      rw [countFor_append,
        (place_exit_order_core cfg env game
          { market_ticker := game.market_ticker
            side := game.position_side
            entry_price := price
            size := fc
            entry_time := now
            order_id := some o } k).1]
      by_cases ho : o = oid
      · simp [hcond, hfind, ho]
      · simp [hcond, hfind, ho, Option.some_inj]
    · rw [hfind]
      simp [hfind]
  · rw [if_neg hcond]
    simp [hcond]

/-- How the `check_order_fills` polling loop changes the number of
positions recorded for a given order id: unchanged when one already
exists, and set to exactly one when a fill is first observed. -/
theorem checkFillsLoop_count (cfg : Config) (env : Env) (game : GameMonitor)
    (now : ℤ) (oid : String) :
    ∀ (oids : List String) (positions : List Position) (filled : List String)
      (k : ℕ),
      (1 ≤ countFor oid positions →
        countFor oid (checkFillsLoop cfg env game now oids positions filled k).positions =
          countFor oid positions) ∧
      (∀ info, countFor oid positions = 0 → oid ∈ oids →
        env.order_status oid = .ok info → 0 < info.filled_count →
        countFor oid (checkFillsLoop cfg env game now oids positions filled k).positions = 1) := by
  intro oids
  induction oids with
  | nil =>
    intro positions filled k
    exact ⟨fun _ => rfl, fun info _ hmem _ _ => absurd hmem (List.not_mem_nil _)⟩
  | cons o rest ih =>
    intro positions filled k
    constructor
    · intro hge
      unfold checkFillsLoop
      rcases hst : env.order_status o with _ | _ | info
      · exact (ih _ _ _).1 hge
      · exact (ih _ _ _).1 hge
      · dsimp only
        by_cases hrec : info.status = "executed" ∧ info.filled_count = 0
        · rw [if_pos hrec]
          rcases hloc : env.local_order o with _ | ⟨sz, pr⟩
          · exact (ih _ _ _).1 hge
          · dsimp only
            have hstep := checkFillsStep_count cfg env game now o info.status sz pr
              positions k oid
            by_cases hfo : positions.find? (fun q => q.order_id == some o) = none ∧
                o = oid
            · exfalso
              obtain ⟨hfind, rfl⟩ := hfo
              exact countFor_pos_find hge hfind
            · rw [if_neg (by intro hx; exact hfo ⟨hx.2.1, hx.2.2⟩), add_zero] at hstep
              rw [(ih _ _ _).1 (by rw [hstep]; exact hge), hstep]
        · rw [if_neg hrec]
          dsimp only
          have hstep := checkFillsStep_count cfg env game now o info.status
            info.filled_count (pyOrPrice info.yes_price info.no_price) positions k oid
          by_cases hfo : positions.find? (fun q => q.order_id == some o) = none ∧
              o = oid
          · exfalso
            obtain ⟨hfind, rfl⟩ := hfo
            exact countFor_pos_find hge hfind
          · rw [if_neg (by intro hx; exact hfo ⟨hx.2.1, hx.2.2⟩), add_zero] at hstep
            rw [(ih _ _ _).1 (by rw [hstep]; exact hge), hstep]
    · intro info h0 hmem hresp hfc
      unfold checkFillsLoop
      by_cases ho : oid = o
      · subst ho
        rw [hresp]
        dsimp only
        have hrec : ¬(info.status = "executed" ∧ info.filled_count = 0) := by
          intro hx
          rw [hx.2] at hfc
          exact absurd hfc (by norm_num)
        rw [if_neg hrec]
        dsimp only
        have hstep := checkFillsStep_count cfg env game now oid info.status
          info.filled_count (pyOrPrice info.yes_price info.no_price) positions k oid
        rw [if_pos ⟨Or.inl hfc, countFor_eq_zero_find h0, rfl⟩, h0] at hstep
        rw [(ih _ _ _).1 (by rw [hstep]), hstep]
      · have hmem' : oid ∈ rest := by
          rcases List.mem_cons.mp hmem with h | h
          · exact absurd h ho
          · exact h
        rcases hst : env.order_status o with _ | _ | info'
        · exact (ih _ _ _).2 info h0 hmem' hresp hfc
        · exact (ih _ _ _).2 info h0 hmem' hresp hfc
        · dsimp only
          by_cases hrec : info'.status = "executed" ∧ info'.filled_count = 0
          · rw [if_pos hrec]
            rcases hloc : env.local_order o with _ | ⟨sz, pr⟩
            · exact (ih _ _ _).2 info h0 hmem' hresp hfc
            · dsimp only
              have hstep := checkFillsStep_count cfg env game now o info'.status sz pr
                positions k oid
              rw [if_neg (by intro hx; exact ho hx.2.2.symm), add_zero] at hstep
              exact (ih _ _ _).2 info (hstep.trans h0) hmem' hresp hfc
          · rw [if_neg hrec]
            dsimp only
            have hstep := checkFillsStep_count cfg env game now o info'.status
              info'.filled_count (pyOrPrice info'.yes_price info'.no_price) positions k oid
            rw [if_neg (by intro hx; exact ho hx.2.2.symm), add_zero] at hstep
            exact (ih _ _ _).2 info (hstep.trans h0) hmem' hresp hfc

/-- C6: reconciliation is idempotent with respect to position creation.
If a position already exists for an order id, polling (any number of times,
with any responses) creates no further position for it; and the first poll
that observes `filled_count > 0` for a pending order with no recorded
position leaves exactly one position for that order id. -/
theorem reconciliation_idempotent (cfg : Config) (env : Env) (game : GameMonitor)
    (now : ℤ) (k : ℕ) (oid : String) (hdry : cfg.dry_run = false) :
    (1 ≤ countFor oid game.positions →
      countFor oid (check_order_fills cfg env game now k).game.positions =
        countFor oid game.positions) ∧
    (∀ info, countFor oid game.positions = 0 → oid ∈ game.order_ids →
      env.order_status oid = .ok info → 0 < info.filled_count →
      countFor oid (check_order_fills cfg env game now k).game.positions = 1) := by
  unfold check_order_fills
  by_cases hids : game.order_ids = []
  · rw [if_pos (Or.inl hids)]
    refine ⟨fun _ => rfl, fun info _ hmem _ _ => ?_⟩
    rw [hids] at hmem
    exact absurd hmem (List.not_mem_nil _)
  · rw [if_neg (by simp [hids, hdry])]
    dsimp only
    exact checkFillsLoop_count cfg env game now oid game.order_ids game.positions [] k

/-- C6 (witness): the idempotence theorem at a concrete input — the first
observed fill creates exactly one position for the order id. -/
theorem reconciliation_idempotent_witness :
    (cfgLive.dry_run = false ∧ countFor "o1" gameW.positions = 0 ∧
      "o1" ∈ gameW.order_ids ∧
      envFill.order_status "o1" = .ok ⟨"filled", 3, 3, some 45, none⟩ ∧
      (0:ℤ) < 3) ∧
    countFor "o1" (check_order_fills cfgLive envFill gameW 0 0).game.positions = 1 :=
  ⟨⟨rfl, by decide, by decide, by decide, by decide⟩,
   (reconciliation_idempotent cfgLive envFill gameW 0 0 "o1" rfl).2
     ⟨"filled", 3, 3, some 45, none⟩ (by decide) (by decide) (by decide) (by decide)⟩

/-! ## C7 — realized P&L accounting on exit -/

theorem foldl_removeFirst_self : ∀ l : List String,
    List.foldl removeFirst l l = [] := by
  intro l
  induction l with
  | nil => rfl
  | cons a t ih =>
    show List.foldl removeFirst (removeFirst (a :: t) a) t = []
    rw [show removeFirst (a :: t) a = t by simp [removeFirst]]
    exact ih

/-- With pairwise-distinct position sizes, matching an exit order to the
first position of equal size finds the intended position. -/
theorem find_by_size_nodup :
    ∀ (L : List (Position × String × ℤ)),
      (L.map fun x => x.1.size).Nodup →
      ∀ x ∈ L,
        (L.map fun y => y.1).find? (fun p => p.size == x.1.size) = some x.1 := by
  intro L
  induction L with
  | nil =>
    intro _ x hx
    cases hx
  | cons a t ih =>
    intro hnodup x hx
    have hnd := List.nodup_cons.mp hnodup
    rw [List.map_cons]
    by_cases hsz : a.1.size = x.1.size
    · rcases List.mem_cons.mp hx with rfl | hxt
      · rw [List.find?_cons_of_pos _ (by simp)]
      · exfalso
        apply hnd.1
        show a.1.size ∈ List.map (fun x => x.1.size) t
        rw [hsz]
        exact List.mem_map.mpr ⟨x, hxt, rfl⟩
    · rcases List.mem_cons.mp hx with rfl | hxt
      · exact absurd rfl hsz
      · rw [List.find?_cons_of_neg _ (by simp [hsz])]
        exact ih hnd.2 x hxt

/-- When every exit order reports a full fill with an explicit nonzero
price and position sizes are pairwise distinct, the polling loop sums
exactly one P&L term per order. -/
theorem monitorExitLoop_filled (env : Env) (L : List (Position × String × ℤ))
    (hnodup : (L.map fun x => x.1.size).Nodup) :
    ∀ M : List (Position × String × ℤ), (∀ x ∈ M, x ∈ L) →
      (∀ x ∈ M, env.order_status x.2.1 =
        .ok ⟨"filled", x.1.size, x.1.size, some x.2.2, none⟩ ∧ x.2.2 ≠ 0) →
      monitorExitLoop env (L.map fun y => y.1) (M.map fun x => x.2.1) =
        ⟨true, M.map fun x => x.2.1,
          (M.map fun x =>
            ((x.2.2 : ℚ) - (x.1.entry_price : ℚ)) / 100 * (x.1.size : ℚ)).sum⟩ := by
  intro M
  induction M with
  | nil =>
    intro _ _
    rfl
  | cons x t ih =>
    intro hsub hresp
    rw [List.map_cons]
    unfold monitorExitLoop
    rw [ih (fun y hy => hsub y (List.mem_cons_of_mem _ hy))
      (fun y hy => hresp y (List.mem_cons_of_mem _ hy))]
    rw [(hresp x (List.mem_cons_self _ _)).1]
    dsimp only
    rw [if_pos (Or.inl rfl)]
    rw [find_by_size_nodup L hnodup x (hsub x (List.mem_cons_self _ _))]
    dsimp only
    rw [if_neg (hresp x (List.mem_cons_self _ _)).2]
    rw [List.map_cons, List.sum_cons]

/-- C7 (counterexample): two equal-sized positions (5 @ 40¢ and 5 @ 30¢)
whose exit orders both fill at 50¢: the by-size match credits the first
position's P&L twice ($1.00), not the true per-position sum ($1.50). -/
theorem exit_pnl_cex :
    (monitor_exit_orders cfgLive envBothFilled gameExitTwo 100).bankroll = 101 ∧
    (100:ℚ) + (((50:ℚ) - 40) / 100 * 5 + ((50:ℚ) - 30) / 100 * 5) = 203/2 ∧
    (101:ℚ) ≠ 203/2 := by
  refine ⟨?_, by norm_num, by norm_num⟩
  norm_num [monitor_exit_orders, monitorExitLoop, removeFirst, gameExitTwo,
    envBothFilled, cfgLive, posB, posC, List.find?]
  rw [if_neg (by decide : ¬(["e1", "e2"] : List String) = [])]

/-- C7 (amended): the per-position accounting holds when the exit orders
correspond one-to-one to positions with *pairwise-distinct sizes*, each
reporting `filled` with count equal to its position's size and an explicit
nonzero fill price: then the bankroll increases by exactly
`Σ (fill_price − entry_price)/100 × size`, each position counted once, and
the game closes.  (With equal sizes the first size-match is credited
repeatedly, and a 404-inferred terminal status contributes no P&L, as the
counterexample shows.) -/
theorem exit_pnl_amended (cfg : Config) (env : Env) (game : GameMonitor)
    (bankroll : ℚ) (L : List (Position × String × ℤ))
    (hdry : cfg.dry_run = false) (hne : L ≠ [])
    (hpos : game.positions = L.map fun x => x.1)
    (hids : game.exit_order_ids = L.map fun x => x.2.1)
    (hnodup : (L.map fun x => x.1.size).Nodup)
    (hresp : ∀ x ∈ L, env.order_status x.2.1 =
      .ok ⟨"filled", x.1.size, x.1.size, some x.2.2, none⟩ ∧ x.2.2 ≠ 0) :
    monitor_exit_orders cfg env game bankroll =
      ⟨{ game with positions := [], exit_order_ids := [], exiting := false },
       bankroll + (L.map fun x =>
         ((x.2.2 : ℚ) - (x.1.entry_price : ℚ)) / 100 * (x.1.size : ℚ)).sum,
       true⟩ := by
  have hidsne : game.exit_order_ids ≠ [] := by
    rw [hids]
    intro h
    exact hne (List.map_eq_nil.mp h)
  unfold monitor_exit_orders
  rw [if_neg hidsne, if_neg (by simp [hdry])]
  rw [hids, hpos]
  rw [monitorExitLoop_filled env L hnodup L (fun x hx => hx) hresp]
  dsimp only
  rw [foldl_removeFirst_self]
  rw [if_pos ⟨rfl, rfl⟩]

/-- C7 (witness): the amended P&L theorem at a concrete one-position
market. -/
theorem exit_pnl_amended_witness :
    (cfgLive.dry_run = false ∧ ([(posB, ("e1", (50:ℤ)))] : List _) ≠ [] ∧
      gameExitOne.positions = [(posB, ("e1", (50:ℤ)))].map (fun x => x.1) ∧
      gameExitOne.exit_order_ids = [(posB, ("e1", (50:ℤ)))].map (fun x => x.2.1) ∧
      ([(posB, ("e1", (50:ℤ)))].map fun x => x.1.size).Nodup ∧
      (∀ x ∈ [(posB, ("e1", (50:ℤ)))], envBothFilled.order_status x.2.1 =
        .ok ⟨"filled", x.1.size, x.1.size, some x.2.2, none⟩ ∧ x.2.2 ≠ 0)) ∧
    monitor_exit_orders cfgLive envBothFilled gameExitOne 100 =
      ⟨{ gameExitOne with positions := [], exit_order_ids := [], exiting := false },
       100 + ([(posB, ("e1", (50:ℤ)))].map fun x =>
         ((x.2.2 : ℚ) - (x.1.entry_price : ℚ)) / 100 * (x.1.size : ℚ)).sum,
       true⟩ :=
  ⟨⟨rfl, by decide, by decide, by decide, by decide, by decide⟩,
   exit_pnl_amended cfgLive envBothFilled gameExitOne 100 [(posB, ("e1", (50:ℤ)))]
     rfl (by decide) (by decide) (by decide) (by decide) (by decide)⟩

/-! ## C2 — deadline behaviour of the tick -/

theorem halftimeSellLoop_live_effects (cfg : Config) (env : Env) (m : String)
    (c : ℤ) (hdry : cfg.dry_run = false) :
    ∀ (ps : List Position) (k : ℕ),
      (halftimeSellLoop cfg env m c ps k).2.2.1 =
        ps.map fun p => Effect.placeOrder m p.side "sell" p.size c := by
  intro ps
  induction ps with
  | nil =>
    intro k
    rfl
  | cons p t ih =>
    intro k
    unfold halftimeSellLoop
    rw [if_neg (by simp [hdry])]
    dsimp only
    rw [ih, List.map_cons]

theorem cancel_pending_spec (cfg : Config) (game : GameMonitor)
    (hdry : cfg.dry_run = false) :
    (cancel_pending_orders cfg game).1 = { game with order_ids := [] } ∧
    (cancel_pending_orders cfg game).2 = game.order_ids.map Effect.cancelOrder := by
  unfold cancel_pending_orders
  by_cases h : game.order_ids = []
  · rw [if_pos h]
    refine ⟨?_, by rw [h]; rfl⟩
    conv_lhs => rw [show game = { game with order_ids := game.order_ids } from rfl]
    rw [h]
  · rw [if_neg h, if_neg (by simp [hdry])]
    exact ⟨rfl, rfl⟩

theorem cancel_exit_spec (cfg : Config) (game : GameMonitor)
    (hdry : cfg.dry_run = false) :
    (cancel_exit_orders cfg game).1.market_ticker = game.market_ticker ∧
    (cancel_exit_orders cfg game).1.order_ids = game.order_ids ∧
    (∀ (f : Option String → ℤ → Effect),
      (cancel_exit_orders cfg game).1.positions.map (fun p => f p.side p.size) =
        game.positions.map (fun p => f p.side p.size)) ∧
    (cancel_exit_orders cfg game).2 =
      (game.positions.filterMap Position.exit_order_id).map Effect.cancelOrder := by
  unfold cancel_exit_orders
  by_cases h : game.positions.filterMap Position.exit_order_id = []
  · rw [if_pos h]
    exact ⟨rfl, rfl, fun f => rfl, by rw [h]; rfl⟩
  · rw [if_neg h, if_neg (by simp [hdry])]
    refine ⟨rfl, rfl, fun f => ?_, rfl⟩
    rw [List.map_map]
    rfl

theorem exit_halftime_spec (cfg : Config) (env : Env) (game : GameMonitor)
    (k : ℕ) (cp : ℚ) (hdry : cfg.dry_run = false)
    (hcp : env.current_price = some cp) :
    (exit_position_at_halftime cfg env game k).effects =
      game.positions.map (fun p => Effect.placeOrder game.market_ticker p.side
        "sell" p.size (pyTrunc (cp * 100))) ∧
    (exit_position_at_halftime cfg env game k).game.exiting = true ∧
    (exit_position_at_halftime cfg env game k).game.order_ids = game.order_ids := by
  unfold exit_position_at_halftime
  rw [hcp]
  dsimp only
  exact ⟨halftimeSellLoop_live_effects cfg env _ _ hdry _ _, rfl, rfl⟩

/-- C2 (amended): reaching the deadline triggers the halftime flatten on
the next tick only from a state with open positions and the `exiting` flag
clear (the `Bracketed` state): then all pending buys and all bracket sells
are cancelled and one maker-only limit sell is placed per open position at
the current price, and the monitor enters the exiting state.  In the
`Reverting` state (`exiting` already set) the deadline branch is skipped —
the tick merely monitors the existing exit orders — and with no open
positions no deadline action is taken at all, as the counterexample
shows. -/
theorem deadline_flatten_amended (cfg : Config) (env : Env) (st : TraderState)
    (game : GameMonitor) (now : ℤ) (cp : ℚ)
    (hdl : game.halftime_ts ≤ now) (hpos : game.positions ≠ [])
    (hex : game.exiting = false) (hdry : cfg.dry_run = false)
    (hcp : env.current_price = some cp) :
    (tick cfg env st game now).effects =
      game.order_ids.map Effect.cancelOrder ++
      ((game.positions.filterMap Position.exit_order_id).map Effect.cancelOrder ++
       game.positions.map (fun p => Effect.placeOrder game.market_ticker p.side
         "sell" p.size (pyTrunc (cp * 100)))) ∧
    (tick cfg env st game now).game.exiting = true ∧
    (tick cfg env st game now).game.order_ids = [] := by
  unfold tick
  rw [if_pos (⟨hdl, hpos, hex⟩ :
    game.halftime_ts ≤ now ∧ game.positions ≠ [] ∧ game.exiting = false)]
  dsimp only
  by_cases hoi : game.order_ids = []
  · rw [if_neg (by simp [hoi])]
    dsimp only
    obtain ⟨hm2, ho2, hmap2, heff2⟩ := cancel_exit_spec cfg game hdry
    obtain ⟨he3, hx3, ho3⟩ :=
      exit_halftime_spec cfg env (cancel_exit_orders cfg game).1 0 cp hdry hcp
    refine ⟨?_, hx3, ?_⟩
    · rw [he3, heff2, hoi, hm2]
      rw [hmap2 fun side size =>
        Effect.placeOrder game.market_ticker side "sell" size (pyTrunc (cp * 100))]
      simp
    · rw [ho3, ho2, hoi]
  · rw [if_pos hoi]
    obtain ⟨hg1, he1⟩ := cancel_pending_spec cfg game hdry
    rw [hg1, he1]
    obtain ⟨hm2, ho2, hmap2, heff2⟩ :=
      cancel_exit_spec cfg { game with order_ids := [] } hdry
    obtain ⟨he3, hx3, ho3⟩ := exit_halftime_spec cfg env
      (cancel_exit_orders cfg { game with order_ids := [] }).1 0 cp hdry hcp
    refine ⟨?_, hx3, ?_⟩
    · rw [he3, heff2, hm2]
      rw [hmap2 fun side size =>
        Effect.placeOrder game.market_ticker side "sell" size (pyTrunc (cp * 100))]
      simp
    · rw [ho3, ho2]

/-- C2 (counterexample): a market in the `Reverting` state (`exiting` set,
one open position, one live bracket sell) at a time past its deadline: the
very next tick issues *no* cancellations and *no* deadline-flatten sells —
its effect list is empty — refuting "deadline always wins regardless of
state". -/
theorem deadline_cex :
    gameReverting.halftime_ts ≤ (7000 : ℤ) ∧
    gameReverting.positions ≠ [] ∧
    gameReverting.exiting = true ∧
    (tick cfgLive envPending stInit gameReverting 7000).effects = [] := by
  refine ⟨by decide, by decide, rfl, ?_⟩
  decide

/-- C2 (witness): the amended deadline theorem at a concrete `Bracketed`
market past its deadline. -/
theorem deadline_flatten_amended_witness :
    (gameBracketed.halftime_ts ≤ (7000 : ℤ) ∧ gameBracketed.positions ≠ [] ∧
      gameBracketed.exiting = false ∧ cfgLive.dry_run = false ∧
      envPending.current_price = some 1) ∧
    ((tick cfgLive envPending stInit gameBracketed 7000).effects =
      gameBracketed.order_ids.map Effect.cancelOrder ++
      ((gameBracketed.positions.filterMap Position.exit_order_id).map
         Effect.cancelOrder ++
       gameBracketed.positions.map (fun p => Effect.placeOrder
         gameBracketed.market_ticker p.side "sell" p.size (pyTrunc (1 * 100)))) ∧
     (tick cfgLive envPending stInit gameBracketed 7000).game.exiting = true ∧
     (tick cfgLive envPending stInit gameBracketed 7000).game.order_ids = []) :=
  ⟨⟨by decide, by decide, rfl, rfl, rfl⟩,
   deadline_flatten_amended cfgLive envPending stInit gameBracketed 7000 1
     (by decide) (by decide) rfl rfl rfl⟩

/-! ## C9 — dry-run behaviour -/

theorem cancel_pending_dry_effects (cfg : Config) (hdry : cfg.dry_run = true) :
    ∀ g : GameMonitor, (cancel_pending_orders cfg g).2 = [] := by
  intro g
  unfold cancel_pending_orders
  split_ifs <;> rfl

theorem cancel_exit_dry_effects (cfg : Config) (hdry : cfg.dry_run = true) :
    ∀ g : GameMonitor, (cancel_exit_orders cfg g).2 = [] := by
  intro g
  unfold cancel_exit_orders
  dsimp only
  split_ifs <;> rfl

theorem halftimeSellLoop_dry_effects (cfg : Config) (env : Env) (m : String)
    (c : ℤ) (hdry : cfg.dry_run = true) :
    ∀ (ps : List Position) (k : ℕ), (halftimeSellLoop cfg env m c ps k).2.2.1 = [] := by
  intro ps
  induction ps with
  | nil =>
    intro k
    rfl
  | cons p t ih =>
    intro k
    unfold halftimeSellLoop
    rw [if_pos hdry]
    exact ih k

theorem exit_halftime_dry_effects (cfg : Config) (env : Env)
    (hdry : cfg.dry_run = true) :
    ∀ (g : GameMonitor) (k : ℕ), (exit_position_at_halftime cfg env g k).effects = [] := by
  intro g k
  unfold exit_position_at_halftime
  rcases hcp : env.current_price with _ | p
  · rfl
  · dsimp only
    exact halftimeSellLoop_dry_effects cfg env _ _ hdry _ _

theorem exitSellLoop_dry_effects (cfg : Config) (env : Env) (m : String)
    (c : ℤ) (b : Bool) (hdry : cfg.dry_run = true) :
    ∀ (ps : List Position) (k : ℕ), (exitSellLoop cfg env m c b ps k).2.1 = [] := by
  intro ps
  induction ps with
  | nil =>
    intro k
    rfl
  | cons p t ih =>
    intro k
    unfold exitSellLoop
    rw [if_pos hdry]
    exact ih k

theorem exit_position_dry_effects (cfg : Config) (env : Env)
    (hdry : cfg.dry_run = true) :
    ∀ (g : GameMonitor) (b : Bool) (k : ℕ), (exit_position cfg env g b k).effects = [] := by
  intro g b k
  unfold exit_position
  dsimp only
  rcases hcp : env.current_price with _ | p
  · dsimp only
    split_ifs <;>
      simp [cancel_pending_dry_effects cfg hdry, cancel_exit_dry_effects cfg hdry]
  · dsimp only
    split_ifs <;>
      simp [cancel_pending_dry_effects cfg hdry, cancel_exit_dry_effects cfg hdry,
        exitSellLoop_dry_effects cfg env _ _ _ hdry]

theorem enterLoop_dry (cfg : Config) (env : Env) (now : ℤ) (fav : String)
    (hdry : cfg.dry_run = true) :
    ∀ (sized : List (ℤ × ℤ)) (g : GameMonitor) (k : ℕ),
      (enterLoop cfg env now fav g sized k).effects = [] ∧
      (enterLoop cfg env now fav g sized k).game.positions = g.positions := by
  intro sized
  induction sized with
  | nil =>
    intro g k
    exact ⟨rfl, rfl⟩
  | cons pr rest ih =>
    intro g k
    obtain ⟨pc, sz⟩ := pr
    unfold enterLoop
    rw [if_pos hdry]
    exact ⟨(ih _ _).1, (ih _ _).2⟩

theorem enter_position_dry (cfg : Config) (env : Env) (hdry : cfg.dry_run = true) :
    ∀ (st : TraderState) (g : GameMonitor) (now : ℤ) (k : ℕ),
      (enter_position cfg env st g now k).effects = [] ∧
      (enter_position cfg env st g now k).game.positions = g.positions := by
  intro st g now k
  unfold enter_position
  rcases hcp : env.current_price with _ | p
  · exact ⟨rfl, rfl⟩
  · rcases hfav : env.favorite_side with _ | fav
    · exact ⟨rfl, rfl⟩
    · dsimp only
      split_ifs with h
      · exact ⟨rfl, rfl⟩
      · exact ⟨(enterLoop_dry cfg env now fav hdry _ _ _).1,
          (enterLoop_dry cfg env now fav hdry _ _ _).2⟩

theorem check_order_fills_dry (cfg : Config) (env : Env) (hdry : cfg.dry_run = true) :
    ∀ (g : GameMonitor) (now : ℤ) (k : ℕ),
      check_order_fills cfg env g now k = ⟨g, [], k⟩ := by
  intro g now k
  unfold check_order_fills
  rw [if_pos (Or.inr hdry)]

set_option maxHeartbeats 1000000 in
theorem tick_dry_effects (cfg : Config) (env : Env) (st : TraderState)
    (g : GameMonitor) (now : ℤ) (hdry : cfg.dry_run = true) :
    (tick cfg env st g now).effects = [] := by
  have epdE : ∀ (st : TraderState) (g : GameMonitor) (now : ℤ) (k : ℕ),
      (enter_position cfg env st g now k).effects = [] :=
    fun st g now k => (enter_position_dry cfg env hdry st g now k).1
  unfold tick
  by_cases h : g.halftime_ts ≤ now ∧ g.positions ≠ [] ∧ g.exiting = false
  · rw [if_pos h]
    show (if g.order_ids ≠ [] then cancel_pending_orders cfg g else (g, [])).2 ++
        (cancel_exit_orders cfg (if g.order_ids ≠ [] then cancel_pending_orders cfg g
          else (g, [])).1).2 ++
        (exit_position_at_halftime cfg env (cancel_exit_orders cfg
          (if g.order_ids ≠ [] then cancel_pending_orders cfg g
            else (g, [])).1).1 0).effects = []
    have e1 : (if g.order_ids ≠ [] then cancel_pending_orders cfg g
        else (g, [])).2 = [] := by
      split_ifs
      · exact cancel_pending_dry_effects cfg hdry g
      · rfl
    rw [e1, cancel_exit_dry_effects cfg hdry, exit_halftime_dry_effects cfg env hdry]
    rfl
  · rw [if_neg h]
    dsimp only
    split_ifs <;>
      simp only [cancel_pending_dry_effects cfg hdry, cancel_exit_dry_effects cfg hdry,
        check_order_fills_dry cfg env hdry, epdE,
        exit_position_dry_effects cfg env hdry, List.append_nil, List.nil_append]

/-- C9 (counterexample): in `live_trader_fixed.py` dry-run mode does NOT
simulate orders as immediately filled. With the dry configuration, a
$100 bankroll and a single 50-cent level, `enter_position` records the
simulated order id `"dry_run_0"` but creates no `Position`, and
`check_order_fills` on the resulting monitor is a no-op (it returns early
in dry-run), so the simulated buy never becomes a `Position` with a
bracket sell. -/
theorem dry_run_cex :
    (enter_position cfgDry envPending stInit gameEligible 0 0).game.order_ids =
      ["dry_run_0"] ∧
    (enter_position cfgDry envPending stInit gameEligible 0 0).game.positions = [] ∧
    check_order_fills cfgDry envPending
      (enter_position cfgDry envPending stInit gameEligible 0 0).game 0 0 =
      ⟨(enter_position cfgDry envPending stInit gameEligible 0 0).game, [], 0⟩ := by
  refine ⟨?_, ?_, check_order_fills_dry cfgDry envPending rfl _ _ _⟩
  · norm_num [enter_position, calculate_position_sizes, idealPosition, pyTrunc,
      enterLoop, cfgDry, cfgLive, envPending, stInit, gameEligible]
    rfl
  · norm_num [enter_position, calculate_position_sizes, idealPosition, pyTrunc,
      enterLoop, cfgDry, cfgLive, envPending, stInit, gameEligible]

/-- C9 (amended): in dry-run mode no mutating gateway endpoint is ever
called — a full `tick` of the main loop produces no place-order or
cancel-order effect — but orders are NOT simulated as filled: in
`live_trader_fixed.py`, `check_order_fills` returns early in dry-run
(monitor unchanged, no effects) and `enter_position` never creates a
`Position`, so the dry path does not drive the fill-side state machine
transitions of live mode. -/
theorem dry_run_amended (cfg : Config) (env : Env) (st : TraderState)
    (game : GameMonitor) (now : ℤ) (k : ℕ) (hdry : cfg.dry_run = true) :
    (tick cfg env st game now).effects = [] ∧
    check_order_fills cfg env game now k = ⟨game, [], k⟩ ∧
    (enter_position cfg env st game now k).game.positions = game.positions :=
  ⟨tick_dry_effects cfg env st game now hdry,
   check_order_fills_dry cfg env hdry game now k,
   (enter_position_dry cfg env hdry st game now k).2⟩

/-- C9 (witness): the amended dry-run theorem at a concrete dry
configuration and fresh market. -/
theorem dry_run_amended_witness :
    (tick cfgDry envPending stInit gameFresh 0).effects = [] ∧
    check_order_fills cfgDry envPending gameFresh 0 0 = ⟨gameFresh, [], 0⟩ ∧
    (enter_position cfgDry envPending stInit gameFresh 0 0).game.positions =
      gameFresh.positions :=
  dry_run_amended cfgDry envPending stInit gameFresh 0 0 rfl
